import Mathlib

/-!
# NeonGecko: TTL cache and fetch client

A shallow embedding of `api/cache.go`, `api/coingecko.go`, `ui/styles.go` and the update
functions of `ui/home.go`, `ui/coin.go` and `main.go`.

* `time.Time` is an instant counted in nanoseconds (an `Int`), `time.Duration`
  a signed nanosecond count (an `Int`); `After` is the strict comparison and
  `Add` is addition, as in package `time` away from the ends of its range.
* A Go `map[string]T` is a list of bindings read through `GoMap.get`; the
  first binding of a key is the one the map holds.
* Every call of `time.Now()` in the source is an explicit clock reading passed
  to the embedded function.
* A client method returns a `Run`: a panic (failed type assertion on a cached
  value), or the returned values with the client afterwards and the urls it
  requested. `c.httpClient.Get`, `json.Unmarshal` and `time.Parse` are
  parameters.
* The models of `ui/home.go`, `ui/coin.go` and `main.go` are values without
  their `client` and `config` pointers; a fetch command takes the client it
  runs on as an argument. `View` returns the branch it takes and the data it
  renders, not the styled string; `textinput.Model` is a parameter.
* The lock discipline of the cache is read off the sequence of mutex and map
  events of each method.
-/

namespace NeonGecko

/-! ## Time -/

/-- Instant of package `time`: nanoseconds on the process clock. -/
abbrev Time := Int

/-- Signed duration of package `time`, in nanoseconds. -/
abbrev Duration := Int

/-- Method `Time.After`: `t.After(u)` reports whether `t` is strictly later than `u`. -/
def Time.After (t u : Time) : Bool := decide (u < t)

/-- Method `Time.Add`: the instant `t + d`. -/
def Time.Add (t : Time) (d : Duration) : Time := t + d

/-- One minute, `time.Minute`. -/
def Minute : Duration := 60 * 1000000000

/-- One second, `time.Second`. -/
def Second : Duration := 1000000000

/-! ## Go maps with string keys -/

/-- Go `map[string]T` as a list of bindings. -/
abbrev GoMap (T : Type) := List (String × T)

/-- Map index with the comma-ok form, `v, ok := m[k]`. -/
def GoMap.get {T : Type} : GoMap T → String → Option T
  | [], _ => none
  | (k', v) :: rest, k => if k' = k then some v else GoMap.get rest k

/-- Builtin `delete(m, k)`. -/
def GoMap.delete {T : Type} (m : GoMap T) (k : String) : GoMap T :=
  m.filter (fun p => decide (p.1 ≠ k))

/-- Assignment `m[k] = v`. -/
def GoMap.set {T : Type} (m : GoMap T) (k : String) (v : T) : GoMap T :=
  (k, v) :: GoMap.delete m k

/-- Keys a `range` over the map visits, each once. -/
def GoMap.keys {T : Type} (m : GoMap T) : List String :=
  (m.map Prod.fst).dedup

/-! ## `api/cache.go` -/

/-- Struct `CacheEntry`; `V` is the dynamic type stored in `Data interface{}`. -/
structure CacheEntry (V : Type) where
  Data : V
  ExpiresAt : Time
deriving DecidableEq, Repr

/-- Struct `Cache` without its mutex. -/
structure Cache (V : Type) where
  entries : GoMap (CacheEntry V)
  ttl : Duration
deriving DecidableEq, Repr

/-- Function `NewCache`: an empty map and the given ttl. -/
def NewCache (V : Type) (ttl : Duration) : Cache V :=
  { entries := [], ttl := ttl }

/-- Method `Cache.Get` with clock reading `now`; returns `((data, found), cache after)`.
A nil `interface{}` result is `none`. -/
def Cache.Get {V : Type} (c : Cache V) (now : Time) (key : String) :
    (Option V × Bool) × Cache V :=
  match c.entries.get key with
  | none => ((none, false), c)
  | some entry =>
    if Time.After now entry.ExpiresAt then
      ((none, false), { c with entries := c.entries.delete key })
    else
      ((some entry.Data, true), c)

/-- Method `Cache.Set` with clock reading `now`. -/
def Cache.Set {V : Type} (c : Cache V) (now : Time) (key : String) (data : V) : Cache V :=
  { c with entries := c.entries.set key { Data := data, ExpiresAt := Time.Add now c.ttl } }

/-- Inner loop of `Cache.cleanup`: `for key, entry := range c.entries`, visiting the keys in
the sequence `order`; a key no longer in the map is skipped. -/
def cleanupLoop {V : Type} (now : Time) :
    List String → GoMap (CacheEntry V) → GoMap (CacheEntry V)
  | [], m => m
  | key :: rest, m =>
    match m.get key with
    | none => cleanupLoop now rest m
    | some entry =>
      if Time.After now entry.ExpiresAt then
        cleanupLoop now rest (m.delete key)
      else
        cleanupLoop now rest m

/-- One tick of `Cache.cleanup` (the body of `for range ticker.C`) with clock reading `now`;
`order` is the sequence in which the `range` visits the keys. -/
def Cache.cleanup {V : Type} (c : Cache V) (now : Time) (order : List String) : Cache V :=
  { c with entries := cleanupLoop now order c.entries }

/-- What is left of a binding after a sweep at `now`: the binding itself when it is live. -/
def liveAt {V : Type} (now : Time) (o : Option (CacheEntry V)) : Option (CacheEntry V) :=
  match o with
  | none => none
  | some entry => if Time.After now entry.ExpiresAt then none else some entry

/-- Operations on a cache, each with the clock reading it takes: the two methods and one tick
of the sweep. -/
inductive CacheOp (V : Type) where
  | get (now : Time) (key : String)
  | set (now : Time) (key : String) (data : V)
  | cleanup (now : Time) (order : List String)

/-- Clock reading taken by the operation. -/
def CacheOp.now {V : Type} : CacheOp V → Time
  | .get now _ => now
  | .set now _ _ => now
  | .cleanup now _ => now

/-- Whether the operation is a `Set` on key `k`. -/
def CacheOp.writes {V : Type} (k : String) : CacheOp V → Bool
  | .set _ key _ => decide (key = k)
  | _ => false

/-- Cache after one operation. -/
def Cache.apply {V : Type} (c : Cache V) : CacheOp V → Cache V
  | .get now key => (c.Get now key).2
  | .set now key data => c.Set now key data
  | .cleanup now order => c.cleanup now order

/-- Cache after a sequence of operations, first to last. -/
def Cache.applyAll {V : Type} (c : Cache V) (ops : List (CacheOp V)) : Cache V :=
  ops.foldl Cache.apply c

/-! ## `models/coin.go` -/

/-- Go `float64` as the number it denotes; the code below only stores and copies such values. -/
abbrev Float64 := ℚ

/-- Go `error`, by the text of its `Error()`. -/
abbrev GoError := String

/-- Struct `models.GlobalData`. -/
structure GlobalData where
  TotalMarketCap : Float64
  TotalVolume : Float64
  MarketCapChangePercentage24h : Float64
deriving DecidableEq, Repr

/-- Struct `models.Coin`; `TotalSupply *float64` is an option, zero `time.Time` is `0`. -/
structure Coin where
  ID : String := ""
  Symbol : String := ""
  Name : String := ""
  CurrentPrice : Float64 := 0
  MarketCap : Float64 := 0
  TotalVolume : Float64 := 0
  CirculatingSupply : Float64 := 0
  TotalSupply : Option Float64 := none
  AllTimeHigh : Float64 := 0
  AllTimeHighDate : Time := 0
  AllTimeLow : Float64 := 0
  AllTimeLowDate : Time := 0
  PriceChangePercentage24h : Float64 := 0
  PriceChangePercentage7d : Float64 := 0
  PriceChangePercentage30d : Float64 := 0
  PriceChangePercentage90d : Float64 := 0
deriving DecidableEq, Repr

/-! ## `api/coingecko.go` -/

/-- Dynamic values the client stores in the cache: `*models.GlobalData`, `*models.Coin`,
`[]models.Coin`. -/
inductive Payload where
  | global (g : GlobalData)
  | coin (c : Coin)
  | coins (cs : List Coin)
deriving DecidableEq, Repr

/-- Map index `m[k]` without the comma-ok form: the zero value when the key is missing. -/
def GoMap.index {T : Type} (zero : T) (m : GoMap T) (k : String) : T :=
  (GoMap.get m k).getD zero

/-- Field `Data` of the anonymous struct `response` in `GetGlobalData`. -/
structure GlobalResponseData where
  TotalMarketCap : GoMap Float64
  TotalVolume : GoMap Float64
  MarketCapChangePercentage24h : Float64

/-- Anonymous struct `response` in `GetGlobalData`. -/
structure GlobalResponse where
  Data : GlobalResponseData

/-- Field `MarketData` of the anonymous struct `response` in `GetCoinData`. -/
structure CoinMarketData where
  CurrentPrice : GoMap Float64
  MarketCap : GoMap Float64
  TotalVolume : GoMap Float64
  CirculatingSupply : Float64
  TotalSupply : Option Float64
  AllTimeHigh : GoMap Float64
  AllTimeHighDate : GoMap String
  AllTimeLow : GoMap Float64
  AllTimeLowDate : GoMap String
  PriceChangePercentage24h : Float64
  PriceChangePercentage7d : Float64
  PriceChangePercentage30d : Float64
  PriceChangePercentage90d : Float64

/-- Anonymous struct `response` in `GetCoinData`. -/
structure CoinResponse where
  ID : String
  Symbol : String
  Name : String
  MarketData : CoinMarketData

/-- Element of `response.Coins` in `SearchCoins`. -/
structure SearchCoin where
  ID : String
  Symbol : String
  Name : String

/-- Anonymous struct `response` in `SearchCoins`. -/
structure SearchResponse where
  Coins : List SearchCoin

/-- Library functions the client calls, taken as parameters: `json.Unmarshal` into each of the
three response structs and `time.Parse` (layout, value). -/
structure Lib where
  unmarshalGlobal : String → Except GoError GlobalResponse
  unmarshalCoin : String → Except GoError CoinResponse
  unmarshalSearch : String → Except GoError SearchResponse
  timeParse : String → String → Except GoError Time

/-- Struct `http.Response` as far as the client reads it: the status code and the outcome of
`io.ReadAll(resp.Body)`. -/
structure HttpResponse where
  StatusCode : Int
  Body : Except GoError String

/-- Outcome of `c.httpClient.Get(url)` for each url, at the moment of one call. -/
abbrev HttpGet := String → Except GoError HttpResponse

/-- Constant `http.StatusOK`. -/
def StatusOK : Int := 200

/-- Constant `BaseURL`. -/
def BaseURL : String := "https://api.coingecko.com/api/v3"

/-- Struct `Client`: the timeout of its `http.Client` and its cache. -/
structure Client where
  timeout : Duration
  cache : Cache Payload
deriving DecidableEq, Repr

/-- Function `NewClient`, from the durations `cfg.GetTimeout()` and `cfg.GetCacheTTL()`. -/
def NewClient (timeout ttl : Duration) : Client :=
  { timeout := timeout, cache := NewCache Payload ttl }

/-- Result of running a client method: a panic (failed type assertion), or the returned
values, the client afterwards and the urls requested from the network, in sequence. -/
inductive Run (R : Type) where
  | panic : Run R
  | done (ret : R) (client : Client) (requests : List String) : Run R

/-- Error built by `fmt.Errorf("API returned status code: %d", resp.StatusCode)`. -/
def statusError (code : Int) : GoError :=
  "API returned status code: " ++ toString code

/-- Cache key of `GetGlobalData`. -/
def globalKey : String := "global_data"

/-- Cache key of `GetCoinData`: `fmt.Sprintf("coin_data_%s", coinID)`. -/
def coinKey (coinID : String) : String := "coin_data_" ++ coinID

/-- Cache key of `SearchCoins`: `fmt.Sprintf("search_%s", query)`. -/
def searchKey (query : String) : String := "search_" ++ query

/-- Url requested by `GetGlobalData`. -/
def globalURL : String := BaseURL ++ "/global"

/-- Url requested by `GetCoinData`. -/
def coinURL (coinID : String) : String :=
  BaseURL ++ "/coins/" ++ coinID ++
    "?localization=false&tickers=false&market_data=true&community_data=false&developer_data=false"

/-- Url requested by `SearchCoins`. -/
def searchURL (query : String) : String := BaseURL ++ "/search?query=" ++ query

/-- Layout passed to `time.Parse` in `GetCoinData`. -/
def dateLayout : String := "2006-01-02T15:04:05.000Z"

/-- Call `t, _ := time.Parse(layout, s)`: the zero time when parsing fails. -/
def parseOrZero (L : Lib) (s : String) : Time :=
  match L.timeParse dateLayout s with
  | .ok t => t
  | .error _ => 0

/-- Method `Client.GetGlobalData`; `now` is the clock reading of the cache `Get`, `later` the
one of the cache `Set`. Returns `(globalData, err)`. -/
def Client.GetGlobalData (L : Lib) (c : Client) (now later : Time) (http : HttpGet) :
    Run (Option GlobalData × Option GoError) :=
  let cacheKey := globalKey
  match c.cache.Get now cacheKey with
  | ((some cached, true), cache1) =>
    match cached with
    | .global g => .done (some g, none) { c with cache := cache1 } []
    | _ => .panic
  | ((none, true), _) => .panic
  | ((_, false), cache1) =>
    let url := globalURL
    match http url with
    | .error err =>
      .done (none, some ("failed to fetch global data: " ++ err)) { c with cache := cache1 } [url]
    | .ok resp =>
      if resp.StatusCode ≠ StatusOK then
        .done (none, some (statusError resp.StatusCode)) { c with cache := cache1 } [url]
      else
        match resp.Body with
        | .error err =>
          .done (none, some ("failed to read response body: " ++ err))
            { c with cache := cache1 } [url]
        | .ok body =>
          match L.unmarshalGlobal body with
          | .error err =>
            .done (none, some ("failed to parse JSON response: " ++ err))
              { c with cache := cache1 } [url]
          | .ok response =>
            let globalData : GlobalData :=
              { TotalMarketCap := GoMap.index 0 response.Data.TotalMarketCap "usd"
                TotalVolume := GoMap.index 0 response.Data.TotalVolume "usd"
                MarketCapChangePercentage24h := response.Data.MarketCapChangePercentage24h }
            .done (some globalData, none)
              { c with cache := cache1.Set later cacheKey (.global globalData) } [url]

/-- Method `Client.GetCoinData`; clock readings as in `GetGlobalData`. Returns
`(coinData, err)`. -/
def Client.GetCoinData (L : Lib) (c : Client) (coinID : String) (now later : Time)
    (http : HttpGet) : Run (Option Coin × Option GoError) :=
  let cacheKey := coinKey coinID
  match c.cache.Get now cacheKey with
  | ((some cached, true), cache1) =>
    match cached with
    | .coin x => .done (some x, none) { c with cache := cache1 } []
    | _ => .panic
  | ((none, true), _) => .panic
  | ((_, false), cache1) =>
    let url := coinURL coinID
    match http url with
    | .error err =>
      .done (none, some ("failed to fetch coin data: " ++ err)) { c with cache := cache1 } [url]
    | .ok resp =>
      if resp.StatusCode ≠ StatusOK then
        .done (none, some (statusError resp.StatusCode)) { c with cache := cache1 } [url]
      else
        match resp.Body with
        | .error err =>
          .done (none, some ("failed to read response body: " ++ err))
            { c with cache := cache1 } [url]
        | .ok body =>
          match L.unmarshalCoin body with
          | .error err =>
            .done (none, some ("failed to parse JSON response: " ++ err))
              { c with cache := cache1 } [url]
          | .ok response =>
            let athDate := parseOrZero L (GoMap.index "" response.MarketData.AllTimeHighDate "usd")
            let atlDate := parseOrZero L (GoMap.index "" response.MarketData.AllTimeLowDate "usd")
            let coinData : Coin :=
              { ID := response.ID
                Symbol := response.Symbol
                Name := response.Name
                CurrentPrice := GoMap.index 0 response.MarketData.CurrentPrice "usd"
                MarketCap := GoMap.index 0 response.MarketData.MarketCap "usd"
                TotalVolume := GoMap.index 0 response.MarketData.TotalVolume "usd"
                CirculatingSupply := response.MarketData.CirculatingSupply
                TotalSupply := response.MarketData.TotalSupply
                AllTimeHigh := GoMap.index 0 response.MarketData.AllTimeHigh "usd"
                AllTimeHighDate := athDate
                AllTimeLow := GoMap.index 0 response.MarketData.AllTimeLow "usd"
                AllTimeLowDate := atlDate
                PriceChangePercentage24h := response.MarketData.PriceChangePercentage24h
                PriceChangePercentage7d := response.MarketData.PriceChangePercentage7d
                PriceChangePercentage30d := response.MarketData.PriceChangePercentage30d
                PriceChangePercentage90d := response.MarketData.PriceChangePercentage90d }
            .done (some coinData, none)
              { c with cache := cache1.Set later cacheKey (.coin coinData) } [url]

/-- Loop of `SearchCoins`: `coins = append(coins, models.Coin{ID, Symbol, Name})` for each
element of `response.Coins`, starting from the slice `coins`. -/
def appendCoins (coins : List Coin) : List SearchCoin → List Coin
  | [] => coins
  | coin :: rest =>
    appendCoins (coins ++ [{ ID := coin.ID, Symbol := coin.Symbol, Name := coin.Name }]) rest

/-- Method `Client.SearchCoins`; clock readings as in `GetGlobalData`. Returns `(coins, err)`,
a nil slice being the empty list. -/
def Client.SearchCoins (L : Lib) (c : Client) (query : String) (now later : Time)
    (http : HttpGet) : Run (List Coin × Option GoError) :=
  let cacheKey := searchKey query
  match c.cache.Get now cacheKey with
  | ((some cached, true), cache1) =>
    match cached with
    | .coins cs => .done (cs, none) { c with cache := cache1 } []
    | _ => .panic
  | ((none, true), _) => .panic
  | ((_, false), cache1) =>
    let url := searchURL query
    match http url with
    | .error err =>
      .done ([], some ("failed to search coins: " ++ err)) { c with cache := cache1 } [url]
    | .ok resp =>
      if resp.StatusCode ≠ StatusOK then
        .done ([], some (statusError resp.StatusCode)) { c with cache := cache1 } [url]
      else
        match resp.Body with
        | .error err =>
          .done ([], some ("failed to read response body: " ++ err))
            { c with cache := cache1 } [url]
        | .ok body =>
          match L.unmarshalSearch body with
          | .error err =>
            .done ([], some ("failed to parse JSON response: " ++ err))
              { c with cache := cache1 } [url]
          | .ok response =>
            let coins := appendCoins [] response.Coins
            .done (coins, none)
              { c with cache := cache1.Set later cacheKey (.coins coins) } [url]

/-! ## The three fetch operations behind one entry point -/

/-- A request to the client: which of the three methods, with its argument. -/
inductive Request where
  | global
  | coin (coinID : String)
  | search (query : String)
deriving DecidableEq, Repr

/-- Cache key the method computes for the request. -/
def Request.cacheKey : Request → String
  | .global => globalKey
  | .coin coinID => coinKey coinID
  | .search query => searchKey query

/-- Url the method requests on a cache miss. -/
def Request.url : Request → String
  | .global => globalURL
  | .coin coinID => coinURL coinID
  | .search query => searchURL query

/-- Type of the first value the method returns. -/
def Request.Result : Request → Type
  | .global => Option GlobalData
  | .coin _ => Option Coin
  | .search _ => List Coin

/-- The nil first value: a nil pointer or a nil slice. -/
def Request.nilResult : (req : Request) → req.Result
  | .global => (none : Option GlobalData)
  | .coin _ => (none : Option Coin)
  | .search _ => ([] : List Coin)

/-- Dispatch of a request to `GetGlobalData`, `GetCoinData` or `SearchCoins`. -/
def Client.fetch (L : Lib) (c : Client) (req : Request) (now later : Time) (http : HttpGet) :
    Run (req.Result × Option GoError) :=
  match req with
  | .global => c.GetGlobalData L now later http
  | .coin coinID => c.GetCoinData L coinID now later http
  | .search query => c.SearchCoins L query now later http

/-- Client after a run, when it did not panic. -/
def Run.client? {R : Type} : Run R → Option Client
  | .panic => none
  | .done _ client _ => some client

/-- Error returned by a run: the second returned value. -/
def Run.err? {R : Type} (r : Run (R × Option GoError)) : Option GoError :=
  match r with
  | .panic => none
  | .done ret _ _ => ret.2

/-- Whether `json.Unmarshal` of the body into the response struct of the request fails. -/
def Lib.unmarshalFails (L : Lib) (req : Request) (body : String) : Bool :=
  match req with
  | .global => match L.unmarshalGlobal body with | .ok _ => false | .error _ => true
  | .coin _ => match L.unmarshalCoin body with | .ok _ => false | .error _ => true
  | .search _ => match L.unmarshalSearch body with | .ok _ => false | .error _ => true

/-- Whether the outbound call fails: a transport error, a status other than `http.StatusOK`
(every non-2xx status is one), a body-read failure, or a JSON parse failure. -/
def outboundFails (L : Lib) (req : Request) (outcome : Except GoError HttpResponse) : Bool :=
  match outcome with
  | .error _ => true
  | .ok resp =>
    if resp.StatusCode ≠ StatusOK then true
    else
      match resp.Body with
      | .error _ => true
      | .ok body => L.unmarshalFails req body

/-- Payload that stands for a returned first value in the cache: the pointer or slice the
method stores on success. A nil pointer stands for none. -/
def Request.wrap : (req : Request) → req.Result → Option Payload
  | .global, (ret : Option GlobalData) => ret.map Payload.global
  | .coin _, (ret : Option Coin) => ret.map Payload.coin
  | .search _, (ret : List Coin) => some (Payload.coins ret)

/-- What a run `r` of a request that misses the cache can be, by the outcome of the outbound
call: a transport error, a status other than `http.StatusOK`, a body-read failure, a JSON
parse failure, or success with a cache write. -/
def MissOutcome (L : Lib) (c : Client) (req : Request) (now later : Time) (http : HttpGet)
    (r : Run (req.Result × Option GoError)) : Prop :=
  (∃ e err, http req.url = .error e ∧
    r = .done (req.nilResult, some err)
      { c with cache := (c.cache.Get now req.cacheKey).2 } [req.url]) ∨
  (∃ resp, http req.url = .ok resp ∧ resp.StatusCode ≠ StatusOK ∧
    r = .done (req.nilResult, some (statusError resp.StatusCode))
      { c with cache := (c.cache.Get now req.cacheKey).2 } [req.url]) ∨
  (∃ resp e, http req.url = .ok resp ∧ resp.StatusCode = StatusOK ∧ resp.Body = .error e ∧
    r = .done (req.nilResult, some ("failed to read response body: " ++ e))
      { c with cache := (c.cache.Get now req.cacheKey).2 } [req.url]) ∨
  (∃ resp body e, http req.url = .ok resp ∧ resp.StatusCode = StatusOK ∧
    resp.Body = .ok body ∧ L.unmarshalFails req body = true ∧
    r = .done (req.nilResult, some ("failed to parse JSON response: " ++ e))
      { c with cache := (c.cache.Get now req.cacheKey).2 } [req.url]) ∨
  (∃ resp body ret p, http req.url = .ok resp ∧ resp.StatusCode = StatusOK ∧
    resp.Body = .ok body ∧ L.unmarshalFails req body = false ∧ req.wrap ret = some p ∧
    r = .done (ret, none)
      { c with cache := (c.cache.Get now req.cacheKey).2.Set later req.cacheKey p } [req.url])

/-- Whether a status code is a 2xx (success class) status. -/
def isSuccessClass (code : Int) : Bool := decide (200 ≤ code) && decide (code < 300)

/-- One event in the life of a client: a fetch with its two clock readings and the network it
meets, or one tick of the cache sweep. -/
inductive Call where
  | fetch (req : Request) (now later : Time) (http : HttpGet)
  | sweep (now : Time) (order : List String)

/-- Clock readings taken during the event. -/
def Call.readings : Call → List Time
  | .fetch _ now later _ => [now, later]
  | .sweep now _ => [now]

/-- Client after one event; `none` when the fetch panics. -/
def Client.step (L : Lib) (c : Client) : Call → Option Client
  | .fetch req now later http => (c.fetch L req now later http).client?
  | .sweep now order => some { c with cache := c.cache.cleanup now order }

/-- Client after a sequence of events, first to last; `none` when one of them panics. -/
def Client.run (L : Lib) (c : Client) : List Call → Option Client
  | [] => some c
  | call :: rest =>
    match c.step L call with
    | none => none
    | some c1 => Client.run L c1 rest

/-! ## Example data -/

/-- Library functions for the examples: every global body decodes to one fixed response, coin
and search bodies do not decode, dates do not parse. -/
def exampleLib : Lib :=
  { unmarshalGlobal := fun _ =>
      .ok { Data := { TotalMarketCap := [("eur", 90), ("usd", 100)]
                      TotalVolume := [("usd", 10)]
                      MarketCapChangePercentage24h := 1 } }
    unmarshalCoin := fun _ => .error "unexpected end of JSON input"
    unmarshalSearch := fun _ => .error "unexpected end of JSON input"
    timeParse := fun _ _ => .error "cannot parse" }

/-- A network that answers every url with the given status and an empty, readable body. -/
def exampleHttp (status : Int) : HttpGet :=
  fun _ => .ok { StatusCode := status, Body := .ok "" }

/-- A client as `NewClient` builds it from the default configuration: timeout 10s, ttl 5m. -/
def exampleClient : Client := NewClient (10 * Second) (5 * Minute)

/-- Snapshot built from the response of `exampleLib`. -/
def exampleSnapshot : GlobalData :=
  { TotalMarketCap := 100, TotalVolume := 10, MarketCapChangePercentage24h := 1 }

/-- The example client after a successful `GetGlobalData` whose `Set` read the clock at 1ns. -/
def exampleClientLoaded : Client :=
  { timeout := 10 * Second
    cache :=
      { entries := [("global_data", { Data := .global exampleSnapshot, ExpiresAt := 1 + 5 * Minute })]
        ttl := 5 * Minute } }

/-- Library functions for the examples in which coin and search bodies decode: the coin body
decodes to a coin without total supply, the search body `"none"` to an empty list and any other
search body to two coins. -/
def exampleLibDecoding : Lib :=
  { unmarshalGlobal := fun _ => .error "unexpected end of JSON input"
    unmarshalCoin := fun _ =>
      .ok { ID := "bitcoin", Symbol := "btc", Name := "Bitcoin"
            MarketData :=
              { CurrentPrice := [("usd", 50000)], MarketCap := [("usd", 1000000)]
                TotalVolume := [("usd", 2000)], CirculatingSupply := 19
                TotalSupply := none
                AllTimeHigh := [("usd", 69000)], AllTimeHighDate := [("usd", "2021-11-10")]
                AllTimeLow := [("usd", 67)], AllTimeLowDate := []
                PriceChangePercentage24h := 1, PriceChangePercentage7d := -2
                PriceChangePercentage30d := 3, PriceChangePercentage90d := 0 } }
    unmarshalSearch := fun body =>
      if body = "none" then .ok { Coins := [] }
      else .ok { Coins := [{ ID := "bitcoin", Symbol := "btc", Name := "Bitcoin" },
                           { ID := "bitcoin-cash", Symbol := "bch", Name := "Bitcoin Cash" }] }
    timeParse := fun _ _ => .error "cannot parse" }

/-- A network that answers every url with status 200 and the given body. -/
def exampleHttpBody (body : String) : HttpGet :=
  fun _ => .ok { StatusCode := 200, Body := .ok body }

/-! ## Types of cached values -/

/-- Whether the type assertion of the method serving `req` succeeds on the cached value:
`cached.(*models.GlobalData)`, `cached.(*models.Coin)`, `cached.([]models.Coin)`. -/
def Request.accepts : Request → Payload → Bool
  | .global, .global _ => true
  | .coin _, .coin _ => true
  | .search _, .coins _ => true
  | _, _ => false

/-- Every value in the cache has the type its key's method asserts on a hit. -/
def Client.wellTyped (c : Client) : Prop :=
  ∀ (req : Request) (entry : CacheEntry Payload),
    c.cache.entries.get req.cacheKey = some entry → req.accepts entry.Data = true

/-! ## `ui/styles.go` -/

/-- Type `lipgloss.Color`, a string. -/
abbrev Color := String

/-- Variable `dayBg`. -/
def dayBg : Color := "#D2B48C"

/-- Variable `nightBg`. -/
def nightBg : Color := "#191970"

/-- Variable `defaultBg`. -/
def defaultBg : Color := "#1a1a1a"

/-- Variable `white`. -/
def white : Color := "#FFFFFF"

/-- Variable `black`. -/
def black : Color := "#000000"

/-- Function `GetTimeBasedBg`; `hour` is `time.Now().Hour()`. -/
def GetTimeBasedBg (hour : Int) : Color :=
  if hour ≥ 6 ∧ hour < 18 then dayBg
  else if hour ≥ 18 ∧ hour < 6 then nightBg
  else defaultBg

/-- Function `GetTextColor`; `hour` is the hour its call of `GetTimeBasedBg` reads. -/
def GetTextColor (hour : Int) : Color :=
  let bg := GetTimeBasedBg hour
  if bg = dayBg then black else white

/-! ## Lock events of `api/cache.go` -/

/-- What a cache method does with the mutex `mu` and the map `entries`, in program order. -/
inductive MuEvent where
  | RLock
  | RUnlock
  | Lock
  | Unlock
  | mapRead (key : String)
  | mapInsert (key : String)
  | mapDelete (key : String)
deriving DecidableEq, Repr

/-- Events of `Cache.Get`: `RLock`, the map index, the `delete` of an expired entry, and the
deferred `RUnlock`. -/
def Cache.GetEvents {V : Type} (c : Cache V) (now : Time) (key : String) : List MuEvent :=
  [MuEvent.RLock, MuEvent.mapRead key] ++
    (match c.entries.get key with
      | none => []
      | some entry => if Time.After now entry.ExpiresAt then [MuEvent.mapDelete key] else []) ++
    [MuEvent.RUnlock]

/-- Events of `Cache.Set`: `Lock`, the map assignment, the deferred `Unlock`. -/
def Cache.SetEvents (key : String) : List MuEvent :=
  [MuEvent.Lock, MuEvent.mapInsert key, MuEvent.Unlock]

/-- Events of the `range` loop in `Cache.cleanup`, along `cleanupLoop`. -/
def cleanupLoopEvents {V : Type} (now : Time) :
    List String → GoMap (CacheEntry V) → List MuEvent
  | [], _ => []
  | key :: rest, m =>
    match m.get key with
    | none => cleanupLoopEvents now rest m
    | some entry =>
      if Time.After now entry.ExpiresAt then
        MuEvent.mapRead key :: MuEvent.mapDelete key :: cleanupLoopEvents now rest (m.delete key)
      else
        MuEvent.mapRead key :: cleanupLoopEvents now rest m

/-- Events of one tick of `Cache.cleanup`: `Lock`, the loop, `Unlock`. -/
def Cache.cleanupEvents {V : Type} (c : Cache V) (now : Time) (order : List String) :
    List MuEvent :=
  [MuEvent.Lock] ++ cleanupLoopEvents now order c.entries ++ [MuEvent.Unlock]

/-- How the running goroutine holds the `sync.RWMutex`. -/
inductive Held where
  | free
  | shared
  | exclusive
deriving DecidableEq, Repr

/-- Whether, starting with the mutex held as `held`, every insert into and delete from the map
happens while the exclusive lock is held and every map read while some lock is held. -/
def lockDiscipline : Held → List MuEvent → Bool
  | _, [] => true
  | _, MuEvent.RLock :: rest => lockDiscipline Held.shared rest
  | _, MuEvent.RUnlock :: rest => lockDiscipline Held.free rest
  | _, MuEvent.Lock :: rest => lockDiscipline Held.exclusive rest
  | _, MuEvent.Unlock :: rest => lockDiscipline Held.free rest
  | held, MuEvent.mapRead _ :: rest => decide (held ≠ Held.free) && lockDiscipline held rest
  | held, MuEvent.mapInsert _ :: rest =>
    decide (held = Held.exclusive) && lockDiscipline held rest
  | held, MuEvent.mapDelete _ :: rest =>
    decide (held = Held.exclusive) && lockDiscipline held rest

/-! ## Messages and commands of the terminal programme -/

/-- Messages the models receive (`tea.Msg`): `tea.WindowSizeMsg`, `tea.KeyMsg` by its
`String()`, the three message types of package `ui`, and any other message. -/
inductive Msg where
  | windowSize (width height : Int)
  | key (name : String)
  | globalDataMsg (data : Option GlobalData)
  | coinDataMsg (data : Option Coin)
  | errMsg (err : GoError)
  | other
deriving DecidableEq, Repr

/-- Commands the models return (`tea.Cmd`): nil, `tea.Quit`, `textinput.Blink`, the two fetch
commands of package `ui`, and a command produced by the text input, by a tag. -/
inductive Cmd where
  | none
  | Quit
  | Blink
  | fetchGlobalData
  | fetchCoinData (query : String)
  | input (tag : Nat)
deriving DecidableEq, Repr

/-- Method `HomeModel.fetchGlobalData` run on the client `m.client` points to. -/
def fetchGlobalData (L : Lib) (client : Client) (now later : Time) (http : HttpGet) : Run Msg :=
  match client.GetGlobalData L now later http with
  | .panic => .panic
  | .done (_, some err) client1 requests => .done (Msg.errMsg err) client1 requests
  | .done (data, none) client1 requests => .done (Msg.globalDataMsg data) client1 requests

/-- Command built by `CoinModel.fetchCoinData(query)`, run on the client `m.client` points to;
`now1`, `later1`, `http1` serve the call of `SearchCoins` and `now2`, `later2`, `http2` the call
of `GetCoinData`. Returns the message together with the client calls made, in sequence. -/
def fetchCoinData (L : Lib) (client : Client) (query : String) (now1 later1 now2 later2 : Time)
    (http1 http2 : HttpGet) : Run (Msg × List Request) :=
  match client.SearchCoins L query now1 later1 http1 with
  | .panic => .panic
  | .done (_, some err) client1 requests =>
    .done (Msg.errMsg err, [Request.search query]) client1 requests
  | .done (searchResults, none) client1 requests =>
    match searchResults with
    | [] =>
      .done (Msg.errMsg ("no coins found for \x27" ++ query ++ "\x27"), [Request.search query])
        client1 requests
    | first :: _ =>
      match client1.GetCoinData L first.ID now2 later2 http2 with
      | .panic => .panic
      | .done (_, some err) client2 requests2 =>
        .done (Msg.errMsg err, [Request.search query, Request.coin first.ID]) client2
          (requests ++ requests2)
      | .done (coinData, none) client2 requests2 =>
        .done (Msg.coinDataMsg coinData, [Request.search query, Request.coin first.ID]) client2
          (requests ++ requests2)

/-! ## `ui/home.go` -/

/-- Struct `HomeModel` without its `client` pointer. -/
structure HomeModel where
  globalData : Option GlobalData
  loading : Bool
  err : Option GoError
  width : Int
  height : Int
deriving DecidableEq, Repr

/-- Function `NewHomeModel`. -/
def NewHomeModel : HomeModel :=
  { globalData := none, loading := true, err := none, width := 0, height := 0 }

/-- Method `HomeModel.Init`. -/
def HomeModel.Init (_ : HomeModel) : Cmd := Cmd.fetchGlobalData

/-- Method `HomeModel.Update`. -/
def HomeModel.Update (m : HomeModel) (msg : Msg) : HomeModel × Cmd :=
  match msg with
  | .windowSize width height => ({ m with width := width, height := height }, Cmd.none)
  | .key name =>
    if name = "q" ∨ name = "ctrl+c" then (m, Cmd.Quit)
    else if name = "r" then ({ m with loading := true }, Cmd.fetchGlobalData)
    else if name = "/" ∨ name = "s" then (m, Cmd.none)
    else if name = "h" then (m, Cmd.none)
    else (m, Cmd.none)
  | .globalDataMsg data => ({ m with loading := false, globalData := data }, Cmd.none)
  | .errMsg err => ({ m with loading := false, err := some err }, Cmd.none)
  | _ => (m, Cmd.none)

/-- What `HomeModel.View` renders, by the branch taken and the data rendered: the loading
text, the error text, the no-data text, or the overview of a snapshot. -/
inductive HomeScreen where
  | loading
  | error (text : String)
  | noData
  | overview (data : GlobalData)
deriving DecidableEq, Repr

/-- Method `HomeModel.View`, up to styling. -/
def HomeModel.View (m : HomeModel) : HomeScreen :=
  if m.loading then HomeScreen.loading
  else
    match m.err with
    | some err => HomeScreen.error ("Error: " ++ err)
    | none =>
      match m.globalData with
      | none => HomeScreen.noData
      | some data => HomeScreen.overview data

/-! ## `ui/coin.go` -/

/-- Methods of `textinput.Model` the coin model calls, over a type `TI` of text inputs. -/
structure TextInputLib (TI : Type) where
  New : TI
  SetValue : TI → String → TI
  Focus : TI → TI
  SetCursor : TI → Int → TI
  Value : TI → String
  Update : TI → Msg → TI × Cmd

/-- Struct `viewport.Model`, by the two fields the coin model assigns. -/
structure Viewport where
  Width : Int
  Height : Int
deriving DecidableEq, Repr

/-- Struct `CoinModel` without its `client` pointer. -/
structure CoinModel (TI : Type) where
  textInput : TI
  viewport : Viewport
  coin : Option Coin
  searchResults : List Coin
  loading : Bool
  err : Option GoError
  mode : String
  width : Int
  height : Int

/-- Function `NewCoinModel`. -/
def NewCoinModel {TI : Type} (B : TextInputLib TI) : CoinModel TI :=
  { textInput := B.Focus B.New, viewport := { Width := 80, Height := 20 }, coin := none
    searchResults := [], loading := false, err := none, mode := "search", width := 0
    height := 0 }

/-- Method `CoinModel.Init`. -/
def CoinModel.Init {TI : Type} (_ : CoinModel TI) : Cmd := Cmd.Blink

/-- Method `CoinModel.Reset`. -/
def CoinModel.Reset {TI : Type} (B : TextInputLib TI) (m : CoinModel TI) : CoinModel TI :=
  { m with coin := none, err := none, loading := false, mode := "search"
           textInput := B.SetCursor (B.Focus (B.SetValue m.textInput "")) 0 }

/-- Method `CoinModel.Update`. -/
def CoinModel.Update {TI : Type} (B : TextInputLib TI) (m : CoinModel TI) (msg : Msg) :
    CoinModel TI × Cmd :=
  match msg with
  | .windowSize width height =>
    ({ m with width := width, height := height
              viewport := { Width := width, Height := height - 4 } }, Cmd.none)
  | .key name =>
    if name = "q" ∨ name = "ctrl+c" then (m, Cmd.Quit)
    else if name = "esc" ∧ m.mode = "display" then
      ({ m with mode := "search", coin := none, err := none
                textInput := B.SetCursor (B.Focus (B.SetValue m.textInput "")) 0 }, Cmd.Blink)
    else if name = "enter" ∧ m.mode = "search" ∧ B.Value m.textInput ≠ "" then
      ({ m with loading := true }, Cmd.fetchCoinData (B.Value m.textInput))
    else if m.mode = "search" then
      ({ m with textInput := (B.Update m.textInput msg).1 }, (B.Update m.textInput msg).2)
    else if m.mode = "display" then
      if name = "/" ∨ name = "s" then
        ({ m with mode := "search", coin := none, err := none
                  textInput := B.SetCursor (B.Focus (B.SetValue m.textInput "")) 0 }, Cmd.Blink)
      else (m, Cmd.none)
    else (m, Cmd.none)
  | .coinDataMsg data =>
    ({ m with loading := false, coin := data, mode := "display"
              textInput := B.SetCursor (B.SetValue m.textInput "") 0 }, Cmd.none)
  | .errMsg err => ({ m with loading := false, err := some err }, Cmd.none)
  | _ => (m, Cmd.none)

/-- What `CoinModel.View` renders, by the branch taken and the data rendered: the loading
text, the error text, the search form, the no-coin text, the grid of a coin, or nothing. -/
inductive CoinScreen (TI : Type) where
  | loading
  | error (text : String)
  | search (input : TI)
  | noCoin
  | display (coin : Coin) (width : Int)
  | blank

/-- Method `CoinModel.View`, up to styling. -/
def CoinModel.View {TI : Type} (m : CoinModel TI) : CoinScreen TI :=
  if m.loading then CoinScreen.loading
  else
    match m.err with
    | some err => CoinScreen.error ("Error: " ++ err)
    | none =>
      if m.mode = "search" then CoinScreen.search m.textInput
      else if m.mode = "display" then
        match m.coin with
        | none => CoinScreen.noCoin
        | some coin => CoinScreen.display coin m.width
      else CoinScreen.blank

/-! ## `main.go` -/

/-- Type `view` with its two constants. -/
inductive View where
  | homeView
  | coinView
deriving DecidableEq, Repr

/-- Struct `mainModel` without its `config` pointer. -/
structure MainModel (TI : Type) where
  currentView : View
  homeModel : HomeModel
  coinModel : CoinModel TI
  width : Int
  height : Int

/-- The closing `switch m.currentView` of `mainModel.Update`: the message goes to the model of
the current view. -/
def MainModel.forward {TI : Type} (B : TextInputLib TI) (m : MainModel TI) (msg : Msg) :
    MainModel TI × Cmd :=
  match m.currentView with
  | .homeView => ({ m with homeModel := (m.homeModel.Update msg).1 }, (m.homeModel.Update msg).2)
  | .coinView =>
    ({ m with coinModel := (m.coinModel.Update B msg).1 }, (m.coinModel.Update B msg).2)

/-- Method `mainModel.Update`. -/
def MainModel.Update {TI : Type} (B : TextInputLib TI) (m : MainModel TI) (msg : Msg) :
    MainModel TI × Cmd :=
  match msg with
  | .windowSize width height =>
    MainModel.forward B { m with width := width, height := height } msg
  | .key name =>
    if name = "q" ∨ name = "ctrl+c" then (m, Cmd.Quit)
    else if (name = "/" ∨ name = "s") ∧ m.currentView = View.homeView then
      ({ m with currentView := View.coinView, coinModel := m.coinModel.Reset B },
        (m.coinModel.Reset B).Init)
    else if name = "tab" then
      if m.currentView = View.homeView then
        ({ m with currentView := View.coinView, coinModel := m.coinModel.Reset B },
          (m.coinModel.Reset B).Init)
      else ({ m with currentView := View.homeView }, m.homeModel.Init)
    else if name = "esc" ∧ m.currentView = View.coinView then
      ({ m with currentView := View.homeView }, Cmd.none)
    else MainModel.forward B m msg
  | _ => MainModel.forward B m msg

/-- A text input for the examples: the typed text itself. -/
def exampleInput : TextInputLib String :=
  { New := "", SetValue := fun _ s => s, Focus := fun t => t, SetCursor := fun t _ => t
    Value := fun t => t, Update := fun t _ => (t, Cmd.none) }

/-- Main model for the examples: the home view showing a snapshot, and a fresh coin model. -/
def exampleMain : MainModel String :=
  { currentView := View.homeView
    homeModel :=
      { globalData := some exampleSnapshot, loading := false, err := none, width := 80
        height := 24 }
    coinModel := NewCoinModel exampleInput
    width := 80
    height := 24 }

/-! ## Lemmas on maps -/

theorem GoMap.delete_cons {T : Type} (k0 : String) (v : T) (rest : GoMap T) (k : String) :
    GoMap.delete ((k0, v) :: rest) k =
      if k0 = k then GoMap.delete rest k else (k0, v) :: GoMap.delete rest k := by
  by_cases h : k0 = k <;> simp [GoMap.delete, List.filter_cons, h]

theorem GoMap.get_delete_self {T : Type} (m : GoMap T) (k : String) :
    GoMap.get (GoMap.delete m k) k = none := by
  induction m with
  | nil => rfl
  | cons p rest ih =>
    obtain ⟨k', v⟩ := p
    rw [GoMap.delete_cons]
    by_cases h : k' = k
    · rw [if_pos h]; exact ih
    · rw [if_neg h, GoMap.get, if_neg h]; exact ih

theorem GoMap.get_delete_ne {T : Type} (m : GoMap T) {k k' : String} (hne : k' ≠ k) :
    GoMap.get (GoMap.delete m k) k' = GoMap.get m k' := by
  induction m with
  | nil => rfl
  | cons p rest ih =>
    obtain ⟨k0, v⟩ := p
    rw [GoMap.delete_cons]
    by_cases h : k0 = k
    · have h0 : k0 ≠ k' := fun e => hne (e ▸ h)
      rw [if_pos h, ih, GoMap.get, if_neg h0]
    · rw [if_neg h]
      by_cases h1 : k0 = k'
      · rw [GoMap.get, if_pos h1, GoMap.get, if_pos h1]
      · rw [GoMap.get, if_neg h1, ih, GoMap.get, if_neg h1]

theorem GoMap.get_set_self {T : Type} (m : GoMap T) (k : String) (v : T) :
    GoMap.get (GoMap.set m k v) k = some v := by
  simp [GoMap.set, GoMap.get]

theorem GoMap.get_set_ne {T : Type} (m : GoMap T) {k k' : String} (v : T) (hne : k' ≠ k) :
    GoMap.get (GoMap.set m k v) k' = GoMap.get m k' := by
  have h : ¬ k = k' := fun e => hne e.symm
  simp [GoMap.set, GoMap.get, h, GoMap.get_delete_ne m hne]

theorem GoMap.mem_keys_of_get {T : Type} (m : GoMap T) (k : String) (v : T)
    (h : GoMap.get m k = some v) : k ∈ GoMap.keys m := by
  induction m with
  | nil => simp [GoMap.get] at h
  | cons p rest ih =>
    obtain ⟨k0, v0⟩ := p
    by_cases h0 : k0 = k
    · simp [GoMap.keys, h0]
    · simp only [GoMap.get, h0, if_false] at h
      have := ih h
      simp only [GoMap.keys, List.mem_dedup, List.map_cons, List.mem_cons] at this ⊢
      exact Or.inr this

theorem cleanupLoop_get {V : Type} (now : Time) (order : List String)
    (m : GoMap (CacheEntry V)) (k : String) :
    GoMap.get (cleanupLoop now order m) k =
      if k ∈ order then liveAt now (GoMap.get m k) else GoMap.get m k := by
  induction order generalizing m with
  | nil => simp [cleanupLoop]
  | cons key rest ih =>
    unfold cleanupLoop
    cases hk : GoMap.get m key with
    | none =>
      simp only [ih, List.mem_cons]
      by_cases e : k = key
      · subst e; simp [hk, liveAt]
      · simp [e]
    | some entry =>
      cases hx : Time.After now entry.ExpiresAt with
      | true =>
        simp only [hx, if_true, ih, List.mem_cons]
        by_cases e : k = key
        · subst e
          simp [hk, liveAt, hx, GoMap.get_delete_self]
        · simp [e, GoMap.get_delete_ne m e]
      | false =>
        simp only [hx, Bool.false_eq_true, if_false, ih, List.mem_cons]
        by_cases e : k = key
        · subst e
          simp [hk, liveAt, hx]
        · simp [e]

/-! ## Lemmas on the cache -/

theorem Time.After_eq_false_iff (t u : Time) : Time.After t u = false ↔ t ≤ u := by
  simp [Time.After]

theorem Time.After_eq_true_iff (t u : Time) : Time.After t u = true ↔ u < t := by
  simp [Time.After]

theorem Cache.Get_of_none {V : Type} (c : Cache V) (now : Time) (key : String)
    (h : c.entries.get key = none) : c.Get now key = ((none, false), c) := by
  simp [Cache.Get, h]

theorem Cache.Get_of_live {V : Type} (c : Cache V) (now : Time) (key : String)
    (entry : CacheEntry V) (h : c.entries.get key = some entry)
    (hl : Time.After now entry.ExpiresAt = false) :
    c.Get now key = ((some entry.Data, true), c) := by
  simp [Cache.Get, h, hl]

theorem Cache.Get_of_expired {V : Type} (c : Cache V) (now : Time) (key : String)
    (entry : CacheEntry V) (h : c.entries.get key = some entry)
    (hx : Time.After now entry.ExpiresAt = true) :
    c.Get now key = ((none, false), { c with entries := c.entries.delete key }) := by
  simp [Cache.Get, h, hx]

/-- A `Get` on `key` leaves the binding of every other key as it was. -/
theorem Cache.Get_entries_ne {V : Type} (c : Cache V) (now : Time) {key k : String}
    (hne : k ≠ key) : (c.Get now key).2.entries.get k = c.entries.get k := by
  cases h : c.entries.get key with
  | none => rw [Cache.Get_of_none c now key h]
  | some entry =>
    cases hx : Time.After now entry.ExpiresAt with
    | true =>
      rw [Cache.Get_of_expired c now key entry h hx]
      exact GoMap.get_delete_ne c.entries hne
    | false => rw [Cache.Get_of_live c now key entry h hx]

/-- After a miss the cache holds no binding for the key. -/
theorem Cache.Get_miss_entries {V : Type} (c : Cache V) (now : Time) (key : String)
    (hm : (c.Get now key).1.2 = false) : (c.Get now key).2.entries.get key = none := by
  cases h : c.entries.get key with
  | none => rw [Cache.Get_of_none c now key h]; exact h
  | some entry =>
    cases hx : Time.After now entry.ExpiresAt with
    | true =>
      rw [Cache.Get_of_expired c now key entry h hx]
      exact GoMap.get_delete_self c.entries key
    | false =>
      rw [Cache.Get_of_live c now key entry h hx] at hm
      simp at hm

theorem Cache.Get_ttl {V : Type} (c : Cache V) (now : Time) (key : String) :
    (c.Get now key).2.ttl = c.ttl := by
  unfold Cache.Get
  split
  · rfl
  · split <;> rfl

/-- An operation that is not a `Set` on `k` keeps a binding of `k` that is live at its clock
reading. -/
theorem Cache.apply_keeps_live {V : Type} (c : Cache V) (op : CacheOp V) (k : String)
    (entry : CacheEntry V) (h : c.entries.get k = some entry)
    (hw : op.writes k = false) (hl : op.now ≤ entry.ExpiresAt) :
    (c.apply op).entries.get k = some entry := by
  have hl' : Time.After op.now entry.ExpiresAt = false := (Time.After_eq_false_iff _ _).2 hl
  cases op with
  | get now key =>
    by_cases e : k = key
    · subst e
      simp only [Cache.apply]
      rw [Cache.Get_of_live c now k entry h hl']
      exact h
    · simp only [Cache.apply]
      rw [Cache.Get_entries_ne c now e]
      exact h
  | set now key data =>
    have e : k ≠ key := by
      intro e
      simp [CacheOp.writes, e] at hw
    simp only [Cache.apply, Cache.Set]
    rw [GoMap.get_set_ne c.entries _ e]
    exact h
  | cleanup now order =>
    simp only [Cache.apply, Cache.cleanup]
    rw [cleanupLoop_get, h]
    have : liveAt now (some entry) = some entry := by
      simp only [liveAt]
      rw [show Time.After now entry.ExpiresAt = false from hl']
      rfl
    rw [this]
    split <;> rfl

/-- An operation that is not a `Set` on `k` leaves the binding of `k` as it was or removes
it. -/
theorem Cache.apply_none_or_same {V : Type} (c : Cache V) (op : CacheOp V) (k : String)
    (hw : op.writes k = false) :
    (c.apply op).entries.get k = none ∨ (c.apply op).entries.get k = c.entries.get k := by
  cases op with
  | get now key =>
    by_cases e : k = key
    · subst e
      simp only [Cache.apply]
      cases hb : (c.Get now k).1.2 with
      | false => exact Or.inl (Cache.Get_miss_entries c now k hb)
      | true =>
        right
        cases h : c.entries.get k with
        | none => rw [Cache.Get_of_none c now k h]; exact h
        | some entry =>
          cases hx : Time.After now entry.ExpiresAt with
          | true =>
            rw [Cache.Get_of_expired c now k entry h hx] at hb
            simp at hb
          | false => rw [Cache.Get_of_live c now k entry h hx]; exact h
    · right
      simp only [Cache.apply]
      exact Cache.Get_entries_ne c now e
  | set now key data =>
    have e : k ≠ key := by
      intro e
      simp [CacheOp.writes, e] at hw
    right
    simp only [Cache.apply, Cache.Set]
    exact GoMap.get_set_ne c.entries _ e
  | cleanup now order =>
    simp only [Cache.apply, Cache.cleanup]
    rw [cleanupLoop_get]
    by_cases hm : k ∈ order
    · rw [if_pos hm]
      cases h : c.entries.get k with
      | none => left; rfl
      | some entry =>
        cases hx : Time.After now entry.ExpiresAt with
        | true => left; simp [liveAt, hx]
        | false => right; simp [liveAt, hx]
    · rw [if_neg hm]
      exact Or.inr rfl

theorem Cache.applyAll_keeps_live {V : Type} (ops : List (CacheOp V)) (c : Cache V)
    (k : String) (entry : CacheEntry V) (h : c.entries.get k = some entry)
    (hw : ∀ op ∈ ops, op.writes k = false) (hl : ∀ op ∈ ops, op.now ≤ entry.ExpiresAt) :
    (c.applyAll ops).entries.get k = some entry := by
  induction ops generalizing c with
  | nil => exact h
  | cons op rest ih =>
    simp only [Cache.applyAll, List.foldl_cons]
    have h1 := Cache.apply_keeps_live c op k entry h
      (hw op (List.mem_cons_self _ _)) (hl op (List.mem_cons_self _ _))
    exact ih (c.apply op) h1 (fun o ho => hw o (List.mem_cons_of_mem _ ho))
      (fun o ho => hl o (List.mem_cons_of_mem _ ho))

theorem Cache.applyAll_none_or_same {V : Type} (ops : List (CacheOp V)) (c : Cache V)
    (k : String) (hw : ∀ op ∈ ops, op.writes k = false) :
    (c.applyAll ops).entries.get k = none ∨
      (c.applyAll ops).entries.get k = c.entries.get k := by
  induction ops generalizing c with
  | nil => exact Or.inr rfl
  | cons op rest ih =>
    simp only [Cache.applyAll, List.foldl_cons]
    have hrest := ih (c.apply op) (fun o ho => hw o (List.mem_cons_of_mem _ ho))
    simp only [Cache.applyAll] at hrest
    rcases hrest with h0 | h0
    · exact Or.inl h0
    · rcases Cache.apply_none_or_same c op k (hw op (List.mem_cons_self _ _)) with h1 | h1
      · exact Or.inl (h0.trans h1)
      · exact Or.inr (h0.trans h1)

/-! ## Lemmas on the client -/

theorem Cache.Get_hit_cache {V : Type} (c : Cache V) (now : Time) (key : String)
    (hhit : (c.Get now key).1.2 = true) : (c.Get now key).2 = c := by
  cases h : c.entries.get key with
  | none => rw [Cache.Get_of_none c now key h]
  | some entry =>
    cases hx : Time.After now entry.ExpiresAt with
    | true =>
      rw [Cache.Get_of_expired c now key entry h hx] at hhit
      simp at hhit
    | false => rw [Cache.Get_of_live c now key entry h hx]

theorem Client.GetGlobalData_miss (L : Lib) (c : Client) (now later : Time) (http : HttpGet)
    (hmiss : (c.cache.Get now globalKey).1.2 = false) :
    MissOutcome L c .global now later http (c.GetGlobalData L now later http) := by
  unfold MissOutcome
  simp only [Request.cacheKey, Request.url, Request.nilResult, Lib.unmarshalFails, Request.wrap]
  rcases hG : c.cache.Get now globalKey with ⟨⟨d, f⟩, cache1⟩
  rw [hG] at hmiss
  simp only at hmiss
  subst hmiss
  rcases ho : http globalURL with err | resp
  · left
    cases d <;> simp only [Client.GetGlobalData, hG, ho] <;> exact ⟨_, _, rfl, rfl⟩
  · right
    cases d <;> simp only [Client.GetGlobalData, hG, ho]
    all_goals
      split
      · rename_i hs
        exact Or.inl ⟨resp, rfl, hs, rfl⟩
      · rename_i hs
        have hs : resp.StatusCode = StatusOK := not_not.mp hs
        right
        split
        · rename_i e hb
          exact Or.inl ⟨resp, e, rfl, hs, hb, rfl⟩
        · rename_i body hb
          right
          split
          · rename_i e hr
            exact Or.inl ⟨resp, body, e, rfl, hs, hb, by rw [hr], rfl⟩
          · rename_i r hr
            refine Or.inr ⟨resp, body, _, _, rfl, hs, hb, by rw [hr], ?_, rfl⟩
            rfl

theorem Client.GetCoinData_miss (L : Lib) (c : Client) (coinID : String) (now later : Time)
    (http : HttpGet) (hmiss : (c.cache.Get now (coinKey coinID)).1.2 = false) :
    MissOutcome L c (.coin coinID) now later http (c.GetCoinData L coinID now later http) := by
  unfold MissOutcome
  simp only [Request.cacheKey, Request.url, Request.nilResult, Lib.unmarshalFails, Request.wrap]
  rcases hG : c.cache.Get now (coinKey coinID) with ⟨⟨d, f⟩, cache1⟩
  rw [hG] at hmiss
  simp only at hmiss
  subst hmiss
  rcases ho : http (coinURL coinID) with err | resp
  · left
    cases d <;> simp only [Client.GetCoinData, hG, ho] <;> exact ⟨_, _, rfl, rfl⟩
  · right
    cases d <;> simp only [Client.GetCoinData, hG, ho]
    all_goals
      split
      · rename_i hs
        exact Or.inl ⟨resp, rfl, hs, rfl⟩
      · rename_i hs
        have hs : resp.StatusCode = StatusOK := not_not.mp hs
        right
        split
        · rename_i e hb
          exact Or.inl ⟨resp, e, rfl, hs, hb, rfl⟩
        · rename_i body hb
          right
          split
          · rename_i e hr
            exact Or.inl ⟨resp, body, e, rfl, hs, hb, by rw [hr], rfl⟩
          · rename_i r hr
            refine Or.inr ⟨resp, body, _, _, rfl, hs, hb, by rw [hr], ?_, rfl⟩
            rfl

theorem Client.SearchCoins_miss (L : Lib) (c : Client) (query : String) (now later : Time)
    (http : HttpGet) (hmiss : (c.cache.Get now (searchKey query)).1.2 = false) :
    MissOutcome L c (.search query) now later http (c.SearchCoins L query now later http) := by
  unfold MissOutcome
  simp only [Request.cacheKey, Request.url, Request.nilResult, Lib.unmarshalFails, Request.wrap]
  rcases hG : c.cache.Get now (searchKey query) with ⟨⟨d, f⟩, cache1⟩
  rw [hG] at hmiss
  simp only at hmiss
  subst hmiss
  rcases ho : http (searchURL query) with err | resp
  · left
    cases d <;> simp only [Client.SearchCoins, hG, ho] <;> exact ⟨_, _, rfl, rfl⟩
  · right
    cases d <;> simp only [Client.SearchCoins, hG, ho]
    all_goals
      split
      · rename_i hs
        exact Or.inl ⟨resp, rfl, hs, rfl⟩
      · rename_i hs
        have hs : resp.StatusCode = StatusOK := not_not.mp hs
        right
        split
        · rename_i e hb
          exact Or.inl ⟨resp, e, rfl, hs, hb, rfl⟩
        · rename_i body hb
          right
          split
          · rename_i e hr
            exact Or.inl ⟨resp, body, e, rfl, hs, hb, by rw [hr], rfl⟩
          · rename_i r hr
            refine Or.inr ⟨resp, body, _, _, rfl, hs, hb, by rw [hr], ?_, rfl⟩
            rfl

/-- Every run on a cache miss is one of the five outcomes. -/
theorem Client.fetch_miss (L : Lib) (c : Client) (req : Request) (now later : Time)
    (http : HttpGet) (hmiss : (c.cache.Get now req.cacheKey).1.2 = false) :
    MissOutcome L c req now later http (c.fetch L req now later http) := by
  cases req with
  | global => exact Client.GetGlobalData_miss L c now later http hmiss
  | coin coinID => exact Client.GetCoinData_miss L c coinID now later http hmiss
  | search query => exact Client.SearchCoins_miss L c query now later http hmiss

/-- A run on a cache hit panics or returns without error, leaving the client as it was and
requesting nothing. -/
theorem Client.fetch_hit (L : Lib) (c : Client) (req : Request) (now later : Time)
    (http : HttpGet) (hhit : (c.cache.Get now req.cacheKey).1.2 = true) :
    c.fetch L req now later http = .panic ∨
      ∃ ret, c.fetch L req now later http = .done (ret, none) c [] := by
  have hc := Cache.Get_hit_cache c.cache now req.cacheKey hhit
  rcases hG : c.cache.Get now req.cacheKey with ⟨⟨d, f⟩, cache1⟩
  rw [hG] at hhit hc
  simp only at hhit hc
  subst hhit
  subst hc
  cases req with
  | global =>
    simp only [Request.cacheKey] at hG
    cases d with
    | none => left; simp only [Client.fetch, Client.GetGlobalData, hG]
    | some p => cases p <;> simp [Client.fetch, Client.GetGlobalData, hG]
  | coin coinID =>
    simp only [Request.cacheKey] at hG
    cases d with
    | none => left; simp only [Client.fetch, Client.GetCoinData, hG]
    | some p => cases p <;> simp [Client.fetch, Client.GetCoinData, hG]
  | search query =>
    simp only [Request.cacheKey] at hG
    cases d with
    | none => left; simp only [Client.fetch, Client.SearchCoins, hG]
    | some p => cases p <;> simp [Client.fetch, Client.SearchCoins, hG]

/-- A live global snapshot in the cache is what `GetGlobalData` returns, with no request. -/
theorem Client.GetGlobalData_of_live (L : Lib) (c : Client) (now later : Time) (http : HttpGet)
    (g : GlobalData) (expiresAt : Time)
    (h : c.cache.entries.get globalKey = some { Data := .global g, ExpiresAt := expiresAt })
    (hl : now ≤ expiresAt) :
    c.GetGlobalData L now later http = .done (some g, none) c [] := by
  have hG := Cache.Get_of_live c.cache now globalKey _ h ((Time.After_eq_false_iff _ _).2 hl)
  simp only [Client.GetGlobalData, hG]

theorem str_append_left_cancel (p a b : String) (h : p ++ a = p ++ b) : a = b := by
  have h1 := congrArg String.data h
  simp only [String.data_append] at h1
  exact String.ext (List.append_cancel_left h1)

theorem str_append_ne_of_head_ne (p q a b : String) (x y : Char) (xs ys : List Char)
    (hp : p.data = x :: xs) (hq : q.data = y :: ys) (hne : x ≠ y) : p ++ a ≠ q ++ b := by
  intro h
  have h1 := congrArg String.data h
  simp only [String.data_append, hp, hq, List.cons_append, List.cons.injEq] at h1
  exact hne h1.1

/-- An event keeps a global-data binding that is live at each of its clock readings. -/
theorem Client.step_keeps_global (L : Lib) (c c2 : Client) (call : Call)
    (entry : CacheEntry Payload) (h : c.cache.entries.get globalKey = some entry)
    (hstep : c.step L call = some c2) (hl : ∀ τ ∈ call.readings, τ ≤ entry.ExpiresAt) :
    c2.cache.entries.get globalKey = some entry := by
  cases call with
  | sweep now order =>
    simp only [Client.step, Option.some.injEq] at hstep
    subst hstep
    exact Cache.apply_keeps_live c.cache (.cleanup now order) globalKey entry h rfl
      (hl now (by simp [Call.readings]))
  | fetch req now later http =>
    have hnow : now ≤ entry.ExpiresAt := hl now (by simp [Call.readings])
    simp only [Client.step] at hstep
    cases hb : (c.cache.Get now req.cacheKey).1.2 with
    | true =>
      rcases Client.fetch_hit L c req now later http hb with hp | ⟨ret, hd⟩
      · rw [hp] at hstep
        simp [Run.client?] at hstep
      · rw [hd] at hstep
        simp only [Run.client?, Option.some.injEq] at hstep
        subst hstep
        exact h
    | false =>
      have hne : globalKey ≠ req.cacheKey := by
        intro e
        rw [← e, Cache.Get_of_live c.cache now globalKey entry h
          ((Time.After_eq_false_iff _ _).2 hnow)] at hb
        simp at hb
      have hget : (c.cache.Get now req.cacheKey).2.entries.get globalKey = some entry :=
        (Cache.Get_entries_ne c.cache now hne).trans h
      rcases Client.fetch_miss L c req now later http hb with
        ⟨_, _, _, hr⟩ | ⟨_, _, _, hr⟩ | ⟨_, _, _, _, _, hr⟩ | ⟨_, _, _, _, _, _, _, hr⟩ |
        ⟨_, _, _, _, _, _, _, _, _, hr⟩
      all_goals
        rw [hr] at hstep
        simp only [Run.client?, Option.some.injEq] at hstep
        subst hstep
      · exact hget
      · exact hget
      · exact hget
      · exact hget
      · simp only [Cache.Set]
        rw [GoMap.get_set_ne _ _ hne]
        exact hget

theorem Client.run_keeps_global (L : Lib) (calls : List Call) (c c2 : Client)
    (entry : CacheEntry Payload) (h : c.cache.entries.get globalKey = some entry)
    (hrun : c.run L calls = some c2)
    (hl : ∀ call ∈ calls, ∀ τ ∈ call.readings, τ ≤ entry.ExpiresAt) :
    c2.cache.entries.get globalKey = some entry := by
  induction calls generalizing c with
  | nil =>
    simp only [Client.run, Option.some.injEq] at hrun
    subst hrun
    exact h
  | cons call rest ih =>
    simp only [Client.run] at hrun
    cases hs : c.step L call with
    | none => rw [hs] at hrun; simp at hrun
    | some c1 =>
      rw [hs] at hrun
      exact ih c1 (Client.step_keeps_global L c c1 call entry h hs
        (hl call (List.mem_cons_self _ _))) hrun
        (fun o ho => hl o (List.mem_cons_of_mem _ ho))

/-! ## Claims on the cache -/

/-- C1, as stated, fails: in a cache whose ttl is negative (here one nanosecond below zero) the
entry written by `Set` is already expired at the same clock reading, and `Get` misses. -/
theorem get_after_set_negative_ttl :
    ¬ ∀ (c : Cache Nat) (k : String) (v : Nat) (now : Time),
      ((c.Set now k v).Get now k).1 = (some v, true) := by
  intro h
  have h1 := h (NewCache Nat (-1)) "k" 7 0
  revert h1
  decide

/-- C1, amended: in a cache whose ttl is not negative, `Get(k)` at the clock reading of
`Set(k, v)`, nothing in between, returns `(v, true)`. -/
theorem get_after_set {V : Type} (c : Cache V) (k : String) (v : V) (now : Time)
    (httl : 0 ≤ c.ttl) : ((c.Set now k v).Get now k).1 = (some v, true) := by
  have hg : (c.Set now k v).entries.get k = some { Data := v, ExpiresAt := Time.Add now c.ttl } :=
    GoMap.get_set_self c.entries k _
  have hl : Time.After now (Time.Add now c.ttl) = false := by
    rw [Time.After_eq_false_iff]
    exact le_add_of_nonneg_right httl
  rw [Cache.Get_of_live (c.Set now k v) now k _ hg hl]

theorem get_after_set_witness :
    (0 : Int) ≤ (NewCache String (5 * Minute)).ttl ∧
      (((NewCache String (5 * Minute)).Set 17 "global" "snapshotA").Get 17 "global").1 =
        (some "snapshotA", true) :=
  ⟨by decide, get_after_set (NewCache String (5 * Minute)) "global" "snapshotA" 17 (by decide)⟩

/-- C2: after `Set(k, v)` at `t0`, and any later operations that do not write `k` again (reads
of any key, writes of other keys, sweeps in any visiting sequence), `Get(k)` at `t` returns
`(v, true)` when `t < t0 + ttl` and the operations took their clock readings no later than `t`,
and returns `(nil, false)` when `t0 + ttl < t`. -/
theorem get_within_and_after_ttl {V : Type} (c : Cache V) (k : String) (v : V) (t0 t : Time)
    (ops : List (CacheOp V)) (hw : ∀ op ∈ ops, op.writes k = false) :
    (t < t0 + c.ttl → (∀ op ∈ ops, op.now ≤ t) →
        (((c.Set t0 k v).applyAll ops).Get t k).1 = (some v, true)) ∧
      (t0 + c.ttl < t → (((c.Set t0 k v).applyAll ops).Get t k).1 = (none, false)) := by
  have hg : (c.Set t0 k v).entries.get k = some { Data := v, ExpiresAt := t0 + c.ttl } :=
    GoMap.get_set_self c.entries k _
  constructor
  · intro hlt hnow
    have hk := Cache.applyAll_keeps_live ops (c.Set t0 k v) k _ hg hw
      (fun op ho => le_trans (hnow op ho) (le_of_lt hlt))
    have hl : Time.After t (t0 + c.ttl) = false := (Time.After_eq_false_iff _ _).2 (le_of_lt hlt)
    rw [Cache.Get_of_live _ t k _ hk hl]
  · intro hgt
    have hx : Time.After t (t0 + c.ttl) = true := (Time.After_eq_true_iff _ _).2 hgt
    rcases Cache.applyAll_none_or_same ops (c.Set t0 k v) k hw with h0 | h0
    · rw [Cache.Get_of_none _ t k h0]
    · rw [Cache.Get_of_expired _ t k _ (h0.trans hg) hx]

theorem get_within_and_after_ttl_witness :
    ((((NewCache String (5 * Minute)).Set 0 "global" "snapshotA").applyAll
        [CacheOp.cleanup (4 * Minute) ["global"]]).Get (4 * Minute + 59 * Second) "global").1 =
        (some "snapshotA", true) ∧
      ((((NewCache String (5 * Minute)).Set 0 "global" "snapshotA").applyAll
        [CacheOp.cleanup (4 * Minute) ["global"]]).Get (5 * Minute + 1 * Second) "global").1 =
        (none, false) :=
  ⟨(get_within_and_after_ttl (NewCache String (5 * Minute)) "global" "snapshotA" 0
      (4 * Minute + 59 * Second) [CacheOp.cleanup (4 * Minute) ["global"]]
      (by simp [CacheOp.writes])).1 (by decide) (by simp [CacheOp.now, Minute, Second]),
   (get_within_and_after_ttl (NewCache String (5 * Minute)) "global" "snapshotA" 0
      (5 * Minute + 1 * Second) [CacheOp.cleanup (4 * Minute) ["global"]]
      (by simp [CacheOp.writes])).2 (by decide)⟩

/-- C3, as stated, fails: an entry whose `ExpiresAt` equals the clock reading is returned by
`Get` with `found = true`, although `now < ExpiresAt` does not hold. -/
theorem get_returns_entry_at_expiry :
    ¬ ∀ (c : Cache Nat) (k : String) (now : Time), (c.Get now k).1.2 = true →
      ∃ entry, c.entries.get k = some entry ∧ now < entry.ExpiresAt := by
  intro h
  have h1 := h { entries := [("k", { Data := 7, ExpiresAt := 5 })], ttl := 0 } "k" 5 (by decide)
  obtain ⟨entry, he, hlt⟩ := h1
  have he2 : entry = { Data := 7, ExpiresAt := 5 } := by
    simp [GoMap.get] at he
    exact he.symm
  rw [he2] at hlt
  exact absurd hlt (by decide)

/-- C3, amended: `Get(k)` returns `found = true` exactly when an entry for `k` exists with
`now ≤ ExpiresAt`; it then returns that entry's data, so an entry whose `ExpiresAt` equals `now`
is still returned; an entry with `ExpiresAt < now` and an absent key give `(nil, false)`. -/
theorem get_found_iff_not_after {V : Type} (c : Cache V) (k : String) (now : Time) :
    ((c.Get now k).1.2 = true ↔
        ∃ entry, c.entries.get k = some entry ∧ now ≤ entry.ExpiresAt) ∧
      (∀ entry, c.entries.get k = some entry → now ≤ entry.ExpiresAt →
        (c.Get now k).1 = (some entry.Data, true)) ∧
      (∀ entry, c.entries.get k = some entry → entry.ExpiresAt < now →
        (c.Get now k).1 = (none, false)) ∧
      (c.entries.get k = none → (c.Get now k).1 = (none, false)) := by
  have hlive : ∀ entry, c.entries.get k = some entry → now ≤ entry.ExpiresAt →
      (c.Get now k).1 = (some entry.Data, true) := by
    intro entry h hle
    rw [Cache.Get_of_live c now k entry h ((Time.After_eq_false_iff _ _).2 hle)]
  have hdead : ∀ entry, c.entries.get k = some entry → entry.ExpiresAt < now →
      (c.Get now k).1 = (none, false) := by
    intro entry h hlt
    rw [Cache.Get_of_expired c now k entry h ((Time.After_eq_true_iff _ _).2 hlt)]
  have hnone : c.entries.get k = none → (c.Get now k).1 = (none, false) := by
    intro h
    rw [Cache.Get_of_none c now k h]
  refine ⟨⟨?_, ?_⟩, hlive, hdead, hnone⟩
  · intro hfound
    cases h : c.entries.get k with
    | none =>
      rw [hnone h] at hfound
      cases hfound
    | some entry =>
      rcases lt_or_le entry.ExpiresAt now with hlt | hle
      · rw [hdead entry h hlt] at hfound
        cases hfound
      · exact ⟨entry, rfl, hle⟩
  · rintro ⟨entry, h, hle⟩
    rw [hlive entry h hle]

/-- C4: one pass of the sweep at `now`, whatever the sequence in which it visits the keys of
the map, leaves exactly the entries that were live before it: a key is bound to `entry`
afterwards exactly when it was bound to `entry` before and `now` is not after
`entry.ExpiresAt`; the ttl is untouched. -/
theorem cleanup_keeps_exactly_live {V : Type} (c : Cache V) (now : Time) (order : List String)
    (hall : ∀ k ∈ c.entries.keys, k ∈ order) :
    (c.cleanup now order).ttl = c.ttl ∧
      ∀ (k : String) (entry : CacheEntry V),
        (c.cleanup now order).entries.get k = some entry ↔
          (c.entries.get k = some entry ∧ Time.After now entry.ExpiresAt = false) := by
  refine ⟨rfl, ?_⟩
  intro k entry
  simp only [Cache.cleanup]
  rw [cleanupLoop_get]
  cases h : c.entries.get k with
  | none =>
    have : liveAt now (none : Option (CacheEntry V)) = none := rfl
    rw [this]
    simp
  | some e =>
    have hk : k ∈ order := hall k (GoMap.mem_keys_of_get c.entries k e h)
    rw [if_pos hk]
    cases hx : Time.After now e.ExpiresAt with
    | true =>
      simp only [liveAt, hx, if_true, Option.some.injEq]
      constructor
      · intro h0; cases h0
      · rintro ⟨he, hf⟩
        subst he
        rw [hx] at hf
        cases hf
    | false =>
      simp only [liveAt, hx, Bool.false_eq_true, if_false, Option.some.injEq]
      constructor
      · intro he; subst he; exact ⟨rfl, hx⟩
      · rintro ⟨he, _⟩; exact he

theorem cleanup_keeps_exactly_live_witness :
    (({ entries := [("old", { Data := 1, ExpiresAt := 10 }), ("new", { Data := 2, ExpiresAt := 90 })],
        ttl := 60 } : Cache Nat).cleanup 50 ["new", "old"]).ttl = 60 ∧
      ∀ (k : String) (entry : CacheEntry Nat),
        (({ entries := [("old", { Data := 1, ExpiresAt := 10 }),
              ("new", { Data := 2, ExpiresAt := 90 })],
            ttl := 60 } : Cache Nat).cleanup 50 ["new", "old"]).entries.get k = some entry ↔
          (GoMap.get [("old", { Data := 1, ExpiresAt := 10 }),
              ("new", ({ Data := 2, ExpiresAt := 90 } : CacheEntry Nat))] k = some entry ∧
            Time.After 50 entry.ExpiresAt = false) :=
  cleanup_keeps_exactly_live
    { entries := [("old", { Data := 1, ExpiresAt := 10 }), ("new", { Data := 2, ExpiresAt := 90 })],
      ttl := 60 } 50 ["new", "old"] (by decide)

/-- C5: `Set(k, v)` at `now` is total; afterwards `k` is bound to exactly
`(v, ExpiresAt = now + ttl)` whatever was there before, every other key is bound as before,
and the ttl is the same. -/
theorem set_writes_only_key {V : Type} (c : Cache V) (k : String) (v : V) (now : Time) :
    (c.Set now k v).entries.get k = some { Data := v, ExpiresAt := now + c.ttl } ∧
      (∀ k2 : String, k2 ≠ k → (c.Set now k v).entries.get k2 = c.entries.get k2) ∧
      (c.Set now k v).ttl = c.ttl :=
  ⟨GoMap.get_set_self c.entries k _, fun _ hne => GoMap.get_set_ne c.entries _ hne, rfl⟩

/-- C6: `Get(k)` at `now` never touches the ttl or the binding of another key; when `k` is
absent or bound to a live entry the cache afterwards is the cache before; when `k` is bound to
an expired entry the only change is that `k` is no longer bound. -/
theorem get_changes_only_expired_key {V : Type} (c : Cache V) (k : String) (now : Time) :
    (c.Get now k).2.ttl = c.ttl ∧
      (∀ k2 : String, k2 ≠ k → (c.Get now k).2.entries.get k2 = c.entries.get k2) ∧
      (c.entries.get k = none → (c.Get now k).2 = c) ∧
      (∀ entry, c.entries.get k = some entry → Time.After now entry.ExpiresAt = false →
        (c.Get now k).2 = c) ∧
      (∀ entry, c.entries.get k = some entry → Time.After now entry.ExpiresAt = true →
        (c.Get now k).2.entries.get k = none) := by
  refine ⟨Cache.Get_ttl c now k, fun k2 hne => Cache.Get_entries_ne c now hne, ?_, ?_, ?_⟩
  · intro h
    rw [Cache.Get_of_none c now k h]
  · intro entry h hl
    rw [Cache.Get_of_live c now k entry h hl]
  · intro entry h hx
    rw [Cache.Get_of_expired c now k entry h hx]
    exact GoMap.get_delete_self c.entries k

/-! ## Claims on the client -/

/-- C7: if `GetGlobalData` succeeds on a cache miss with one network request, its cache `Get`
reading the clock at `t0` and its `Set` at `t0s ≥ t0`, then after any later events (fetches of
any of the three kinds, sweeps) that run without panic and read the clock no later than `t`,
a `GetGlobalData` at `t < t0 + ttl` returns the same snapshot, requests nothing from the
network and leaves the client as it was. -/
theorem global_data_served_from_cache (L : Lib) (c c1 c2 : Client) (t0 t0s t ts : Time)
    (http http2 : HttpGet) (g : GlobalData) (calls : List Call)
    (hfirst : c.GetGlobalData L t0 t0s http = .done (some g, none) c1 [globalURL])
    (hclock : t0 ≤ t0s)
    (hrun : c1.run L calls = some c2)
    (hbefore : ∀ call ∈ calls, ∀ τ ∈ call.readings, τ ≤ t)
    (hwin : t < t0 + c.cache.ttl) :
    c2.GetGlobalData L t ts http2 = .done (some g, none) c2 [] := by
  have hmiss : (c.cache.Get t0 (Request.cacheKey .global)).1.2 = false := by
    cases hb : (c.cache.Get t0 (Request.cacheKey .global)).1.2 with
    | false => rfl
    | true =>
      rcases Client.fetch_hit L c .global t0 t0s http hb with hp | ⟨ret, hd⟩
      · simp only [Client.fetch] at hp
        rw [hp] at hfirst
        cases hfirst
      · simp only [Client.fetch] at hd
        rw [hd] at hfirst
        simp at hfirst
  have hout := Client.fetch_miss L c .global t0 t0s http hmiss
  simp only [Client.fetch] at hout
  rw [hfirst] at hout
  have hentry : c1.cache.entries.get globalKey =
      some { Data := .global g, ExpiresAt := t0s + c.cache.ttl } := by
    rcases hout with ⟨_, _, _, hr⟩ | ⟨_, _, _, hr⟩ | ⟨_, _, _, _, _, hr⟩ |
      ⟨_, _, _, _, _, _, _, hr⟩ | ⟨_, _, ret, p, _, _, _, _, hwrap, hr⟩
    · simp [Request.nilResult] at hr
    · simp [Request.nilResult] at hr
    · simp [Request.nilResult] at hr
    · simp [Request.nilResult] at hr
    · simp only [Run.done.injEq, Prod.mk.injEq, and_true, true_and] at hr
      obtain ⟨hret, hc1, _⟩ := hr
      subst hret
      subst hc1
      simp only [Request.wrap, Option.map_some', Option.some.injEq] at hwrap
      subst hwrap
      simp only [Request.cacheKey, Cache.Set, Time.Add]
      rw [GoMap.get_set_self, Cache.Get_ttl]
  have hle : t ≤ t0s + c.cache.ttl := by linarith
  have hfinal := Client.run_keeps_global L calls c1 c2 _ hentry hrun
    (fun call hc τ hτ => le_trans (hbefore call hc τ hτ) hle)
  exact Client.GetGlobalData_of_live L c2 t ts http2 g _ hfinal hle

theorem global_data_served_from_cache_witness :
    exampleClientLoaded.GetGlobalData exampleLib (4 * Minute + 59 * Second)
        (5 * Minute) (exampleHttp 500) =
      .done (some exampleSnapshot, none) exampleClientLoaded [] :=
  global_data_served_from_cache exampleLib exampleClient exampleClientLoaded
    exampleClientLoaded 0 1 (4 * Minute + 59 * Second) (5 * Minute) (exampleHttp 200)
    (exampleHttp 500) exampleSnapshot
    [Call.fetch (.coin "bitcoin") 2 3 (exampleHttp 500), Call.sweep Minute ["global_data"],
      Call.fetch (.search "btc") (2 * Minute) (3 * Minute) (exampleHttp 200)]
    (by rfl) (by decide) (by rfl) (by simp [Call.readings, Minute, Second]) (by decide)

/-- C8: for each of the three fetch operations, on a cache miss where the outbound call fails
(transport error, status other than 200, body-read failure, JSON parse failure) the
operation returns an error and the nil result, requests its url once, and leaves the cache as
the missing `Get` left it, with no entry under the operation's key. -/
theorem failed_fetch_not_cached (L : Lib) (c : Client) (req : Request) (now later : Time)
    (http : HttpGet) (hmiss : (c.cache.Get now req.cacheKey).1.2 = false)
    (hfail : outboundFails L req (http req.url) = true) :
    (∃ err, c.fetch L req now later http =
        .done (req.nilResult, some err)
          { c with cache := (c.cache.Get now req.cacheKey).2 } [req.url]) ∧
      (c.cache.Get now req.cacheKey).2.entries.get req.cacheKey = none := by
  refine ⟨?_, Cache.Get_miss_entries c.cache now req.cacheKey hmiss⟩
  rcases Client.fetch_miss L c req now later http hmiss with
    ⟨_, err, _, hr⟩ | ⟨_, _, _, hr⟩ | ⟨_, _, _, _, _, hr⟩ | ⟨_, _, _, _, _, _, _, hr⟩ |
    ⟨resp, body, _, _, ho, hs, hb, hu, _, _⟩
  · exact ⟨_, hr⟩
  · exact ⟨_, hr⟩
  · exact ⟨_, hr⟩
  · exact ⟨_, hr⟩
  · rw [ho] at hfail
    simp [outboundFails, hs, hb, hu] at hfail

theorem failed_fetch_not_cached_witness :
    (∃ err, exampleClient.fetch exampleLib (.coin "bitcoin") 0 1 (exampleHttp 500) =
        .done ((Request.coin "bitcoin").nilResult, some err)
          { exampleClient with
            cache := (exampleClient.cache.Get 0 (Request.coin "bitcoin").cacheKey).2 }
          [(Request.coin "bitcoin").url]) ∧
      (exampleClient.cache.Get 0 (Request.coin "bitcoin").cacheKey).2.entries.get
        (Request.coin "bitcoin").cacheKey = none :=
  failed_fetch_not_cached exampleLib exampleClient (.coin "bitcoin") 0 1 (exampleHttp 500)
    (by rfl) (by rfl)

/-- C9, as stated, fails: status 204 is a 2xx status, yet on a cache miss the operation fails
with the status error for 204. -/
theorem status_error_on_2xx_other_than_200 :
    ¬ ∀ (L : Lib) (c : Client) (req : Request) (now later : Time) (http : HttpGet)
        (resp : HttpResponse),
      (c.cache.Get now req.cacheKey).1.2 = false → http req.url = .ok resp →
        ((c.fetch L req now later http).err? = some (statusError resp.StatusCode) ↔
          isSuccessClass resp.StatusCode = false) := by
  intro h
  have h1 := h exampleLib exampleClient .global 0 1 (exampleHttp 204)
    { StatusCode := 204, Body := .ok "" } (by rfl) (by rfl)
  have h2 : isSuccessClass 204 = false := h1.1 (by rfl)
  revert h2
  decide

/-- C9, amended: for each of the three fetch operations and every response status `s` received
on a cache miss, the operation fails with the status error exactly when `s` is not 200
(`http.StatusOK`), and the description of that error contains the decimal numeral of `s`. -/
theorem status_error_iff_not_ok (L : Lib) (c : Client) (req : Request) (now later : Time)
    (http : HttpGet) (resp : HttpResponse)
    (hmiss : (c.cache.Get now req.cacheKey).1.2 = false) (hresp : http req.url = .ok resp) :
    ((c.fetch L req now later http).err? = some (statusError resp.StatusCode) ↔
        resp.StatusCode ≠ StatusOK) ∧
      (toString resp.StatusCode).data <:+: (statusError resp.StatusCode).data := by
  constructor
  · rcases Client.fetch_miss L c req now later http hmiss with
      ⟨_, _, ho, _⟩ | ⟨r, ho, hs, hr⟩ | ⟨r, e, ho, hs, _, hr⟩ | ⟨r, _, e, ho, hs, _, _, hr⟩ |
      ⟨r, _, _, _, ho, hs, _, _, _, hr⟩
    · rw [hresp] at ho
      cases ho
    · rw [hresp] at ho
      cases ho
      rw [hr]
      simp [Run.err?, hs]
    · rw [hresp] at ho
      cases ho
      rw [hr]
      simp only [Run.err?, Option.some.injEq, hs, ne_eq, not_true_eq_false, iff_false]
      exact str_append_ne_of_head_ne "failed to read response body: "
        "API returned status code: " e (toString StatusOK) 'f' 'A' _ _ rfl rfl (by decide)
    · rw [hresp] at ho
      cases ho
      rw [hr]
      simp only [Run.err?, Option.some.injEq, hs, ne_eq, not_true_eq_false, iff_false]
      exact str_append_ne_of_head_ne "failed to parse JSON response: "
        "API returned status code: " e (toString StatusOK) 'f' 'A' _ _ rfl rfl (by decide)
    · rw [hresp] at ho
      cases ho
      rw [hr]
      simp [Run.err?, hs]
  · exact ⟨"API returned status code: ".data, [], by simp [statusError]⟩

theorem status_error_iff_not_ok_witness :
    ((exampleClient.fetch exampleLib (.search "btc") 0 1 (exampleHttp 500)).err? =
          some (statusError 500) ↔ (500 : Int) ≠ StatusOK) ∧
      (toString (500 : Int)).data <:+: (statusError 500).data :=
  status_error_iff_not_ok exampleLib exampleClient (.search "btc") 0 1 (exampleHttp 500)
    { StatusCode := 500, Body := .ok "" } (by rfl) (by rfl)

/-- C10: the map from (operation, argument) to cache key is injective: the global key, the
coin keys and the search keys never coincide across operations, distinct coin ids give
distinct coin keys and distinct raw queries give distinct search keys. -/
theorem cacheKey_injective : Function.Injective Request.cacheKey := by
  intro a b h
  cases a with
  | global =>
    cases b with
    | global => rfl
    | coin y =>
      exact absurd h (by
        simpa [Request.cacheKey, globalKey, coinKey] using
          str_append_ne_of_head_ne "global_data" "coin_data_" "" y 'g' 'c' _ _ rfl rfl
            (by decide))
    | search y =>
      exact absurd h (by
        simpa [Request.cacheKey, globalKey, searchKey] using
          str_append_ne_of_head_ne "global_data" "search_" "" y 'g' 's' _ _ rfl rfl
            (by decide))
  | coin x =>
    cases b with
    | global =>
      exact absurd h (by
        simpa [Request.cacheKey, globalKey, coinKey] using
          str_append_ne_of_head_ne "coin_data_" "global_data" x "" 'c' 'g' _ _ rfl rfl
            (by decide))
    | coin y =>
      simp only [Request.cacheKey, coinKey] at h
      rw [str_append_left_cancel _ _ _ h]
    | search y =>
      exact absurd h
        (str_append_ne_of_head_ne "coin_data_" "search_" x y 'c' 's' _ _ rfl rfl (by decide))
  | search x =>
    cases b with
    | global =>
      exact absurd h (by
        simpa [Request.cacheKey, globalKey, searchKey] using
          str_append_ne_of_head_ne "search_" "global_data" x "" 's' 'g' _ _ rfl rfl
            (by decide))
    | coin y =>
      exact absurd h
        (str_append_ne_of_head_ne "search_" "coin_data_" x y 's' 'c' _ _ rfl rfl (by decide))
    | search y =>
      simp only [Request.cacheKey, searchKey] at h
      rw [str_append_left_cancel _ _ _ h]

/-! ## Lemmas on search results, cached types and lock events -/

theorem appendCoins_eq (acc : List Coin) (cs : List SearchCoin) :
    appendCoins acc cs =
      acc ++ cs.map
        (fun coin => ({ ID := coin.ID, Symbol := coin.Symbol, Name := coin.Name } : Coin)) := by
  induction cs generalizing acc with
  | nil => simp [appendCoins]
  | cons x rest ih => simp [appendCoins, ih]

theorem Request.wrap_accepts (req : Request) (ret : req.Result) (p : Payload)
    (h : req.wrap ret = some p) : req.accepts p = true := by
  cases req with
  | global =>
    cases ret with
    | none => simp [Request.wrap] at h
    | some g => simp [Request.wrap] at h; subst h; rfl
  | coin coinID =>
    cases ret with
    | none => simp [Request.wrap] at h
    | some g => simp [Request.wrap] at h; subst h; rfl
  | search query =>
    simp [Request.wrap] at h; subst h; rfl

theorem Client.fetch_hit_typed (L : Lib) (c : Client) (req : Request) (now later : Time)
    (http : HttpGet) (hty : c.wellTyped) (hhit : (c.cache.Get now req.cacheKey).1.2 = true) :
    ∃ ret, c.fetch L req now later http = .done (ret, none) c [] := by
  cases h : c.cache.entries.get req.cacheKey with
  | none =>
    rw [Cache.Get_of_none c.cache now _ h] at hhit
    simp at hhit
  | some entry =>
    cases hx : Time.After now entry.ExpiresAt with
    | true =>
      rw [Cache.Get_of_expired c.cache now _ entry h hx] at hhit
      simp at hhit
    | false =>
      have hG := Cache.Get_of_live c.cache now _ entry h hx
      have ha := hty req entry h
      cases req with
      | global =>
        simp only [Request.cacheKey] at hG
        cases hd : entry.Data <;> rw [hd] at ha hG <;> simp [Request.accepts] at ha
        simp only [Client.fetch, Client.GetGlobalData, hG]
        exact ⟨_, rfl⟩
      | coin coinID =>
        simp only [Request.cacheKey] at hG
        cases hd : entry.Data <;> rw [hd] at ha hG <;> simp [Request.accepts] at ha
        simp only [Client.fetch, Client.GetCoinData, hG]
        exact ⟨_, rfl⟩
      | search query =>
        simp only [Request.cacheKey] at hG
        cases hd : entry.Data <;> rw [hd] at ha hG <;> simp [Request.accepts] at ha
        simp only [Client.fetch, Client.SearchCoins, hG]
        exact ⟨_, rfl⟩


theorem Request.cacheKey_inj (a b : Request) (h : a.cacheKey = b.cacheKey) : a = b := by
  cases a <;> cases b <;> simp only [Request.cacheKey, globalKey, coinKey, searchKey] at h
  · rfl
  · exact absurd h (by
      simpa using str_append_ne_of_head_ne "global_data" "coin_data_" "" _ 'g' 'c' _ _ rfl rfl
        (by decide))
  · exact absurd h (by
      simpa using str_append_ne_of_head_ne "global_data" "search_" "" _ 'g' 's' _ _ rfl rfl
        (by decide))
  · exact absurd h (by
      simpa using str_append_ne_of_head_ne "coin_data_" "global_data" _ "" 'c' 'g' _ _ rfl rfl
        (by decide))
  · rw [str_append_left_cancel _ _ _ h]
  · exact absurd h
      (str_append_ne_of_head_ne "coin_data_" "search_" _ _ 'c' 's' _ _ rfl rfl (by decide))
  · exact absurd h (by
      simpa using str_append_ne_of_head_ne "search_" "global_data" _ "" 's' 'g' _ _ rfl rfl
        (by decide))
  · exact absurd h
      (str_append_ne_of_head_ne "search_" "coin_data_" _ _ 's' 'c' _ _ rfl rfl (by decide))
  · rw [str_append_left_cancel _ _ _ h]

theorem Client.wellTyped_of_shrink (c c2 : Client) (hty : c.wellTyped)
    (h : ∀ k, c2.cache.entries.get k = none ∨ c2.cache.entries.get k = c.cache.entries.get k) :
    c2.wellTyped := by
  intro req entry he
  rcases h req.cacheKey with h0 | h0
  · rw [h0] at he
    cases he
  · rw [h0] at he
    exact hty req entry he

theorem Cache.Get_none_or_same {V : Type} (c : Cache V) (now : Time) (key k : String) :
    (c.Get now key).2.entries.get k = none ∨
      (c.Get now key).2.entries.get k = c.entries.get k :=
  Cache.apply_none_or_same c (.get now key) k rfl

theorem Client.wellTyped_set (c : Client) (cache1 : Cache Payload) (req : Request)
    (later : Time) (p : Payload) (hty : c.wellTyped) (hp : req.accepts p = true)
    (h : ∀ k, cache1.entries.get k = none ∨ cache1.entries.get k = c.cache.entries.get k) :
    Client.wellTyped { c with cache := cache1.Set later req.cacheKey p } := by
  intro req2 entry he
  simp only [Cache.Set] at he
  by_cases e : req2.cacheKey = req.cacheKey
  · have e2 := Request.cacheKey_inj req2 req e
    subst e2
    rw [GoMap.get_set_self] at he
    cases he
    exact hp
  · rw [GoMap.get_set_ne _ _ e] at he
    rcases h req2.cacheKey with h0 | h0
    · rw [h0] at he
      cases he
    · rw [h0] at he
      exact hty req2 entry he

theorem Client.step_wellTyped (L : Lib) (c : Client) (call : Call) (hty : c.wellTyped) :
    ∃ c2, c.step L call = some c2 ∧ c2.wellTyped := by
  cases call with
  | sweep now order =>
    refine ⟨_, rfl, ?_⟩
    exact Client.wellTyped_of_shrink c _ hty
      (fun k => Cache.apply_none_or_same c.cache (.cleanup now order) k rfl)
  | fetch req now later http =>
    simp only [Client.step]
    cases hb : (c.cache.Get now req.cacheKey).1.2 with
    | true =>
      obtain ⟨ret, hd⟩ := Client.fetch_hit_typed L c req now later http hty hb
      rw [hd]
      exact ⟨c, rfl, hty⟩
    | false =>
      have hshrink := Cache.Get_none_or_same c.cache now req.cacheKey
      rcases Client.fetch_miss L c req now later http hb with
        ⟨_, _, _, hr⟩ | ⟨_, _, _, hr⟩ | ⟨_, _, _, _, _, hr⟩ | ⟨_, _, _, _, _, _, _, hr⟩ |
        ⟨_, _, ret, p, _, _, _, _, hwrap, hr⟩
      · rw [hr]; exact ⟨_, rfl, Client.wellTyped_of_shrink c _ hty hshrink⟩
      · rw [hr]; exact ⟨_, rfl, Client.wellTyped_of_shrink c _ hty hshrink⟩
      · rw [hr]; exact ⟨_, rfl, Client.wellTyped_of_shrink c _ hty hshrink⟩
      · rw [hr]; exact ⟨_, rfl, Client.wellTyped_of_shrink c _ hty hshrink⟩
      · rw [hr]
        exact ⟨_, rfl, Client.wellTyped_set c _ req later p hty
          (Request.wrap_accepts req ret p hwrap) hshrink⟩

theorem Client.run_wellTyped (L : Lib) (calls : List Call) (c : Client) (hty : c.wellTyped) :
    ∃ c2, c.run L calls = some c2 ∧ c2.wellTyped := by
  induction calls generalizing c with
  | nil => exact ⟨c, rfl, hty⟩
  | cons call rest ih =>
    obtain ⟨c1, hs, h1⟩ := Client.step_wellTyped L c call hty
    obtain ⟨c2, hr, h2⟩ := ih c1 h1
    refine ⟨c2, ?_, h2⟩
    simp only [Client.run, hs]
    exact hr

theorem NewClient_wellTyped (timeout ttl : Duration) : (NewClient timeout ttl).wellTyped := by
  intro req entry he
  simp [NewClient, NewCache, GoMap.get] at he

theorem Client.fetch_no_panic (L : Lib) (c : Client) (req : Request) (now later : Time)
    (http : HttpGet) (hty : c.wellTyped) : c.fetch L req now later http ≠ .panic := by
  obtain ⟨c2, hs, _⟩ := Client.step_wellTyped L c (.fetch req now later http) hty
  intro hp
  simp only [Client.step, hp, Run.client?] at hs
  cases hs

theorem lockDiscipline_cleanupLoop {V : Type} (now : Time) (order : List String)
    (m : GoMap (CacheEntry V)) (tail : List MuEvent)
    (h : lockDiscipline Held.exclusive tail = true) :
    lockDiscipline Held.exclusive (cleanupLoopEvents now order m ++ tail) = true := by
  induction order generalizing m with
  | nil => simpa [cleanupLoopEvents] using h
  | cons key rest ih =>
    unfold cleanupLoopEvents
    cases hk : GoMap.get m key with
    | none => exact ih m
    | some entry =>
      cases hx : Time.After now entry.ExpiresAt with
      | true => simp [hx, lockDiscipline, ih]
      | false => simp [hx, lockDiscipline, ih]

/-! ## Claims on records, commands and the interface -/

/-- C11: when the coin-detail response decodes, the record `GetCoinData` builds, returns and
caches has exactly the response's `TotalSupply`: absent when the response's is absent, the same
number otherwise; an absent total supply never becomes the number zero. -/
theorem coin_total_supply_copied (L : Lib) (c : Client) (coinID : String) (now later : Time)
    (http : HttpGet) (resp : HttpResponse) (body : String) (response : CoinResponse)
    (hmiss : (c.cache.Get now (coinKey coinID)).1.2 = false)
    (ho : http (coinURL coinID) = .ok resp) (hs : resp.StatusCode = StatusOK)
    (hb : resp.Body = .ok body) (hu : L.unmarshalCoin body = .ok response) :
    ∃ coin c2,
      c.GetCoinData L coinID now later http = .done (some coin, none) c2 [coinURL coinID] ∧
      coin.TotalSupply = response.MarketData.TotalSupply ∧
      (coin.TotalSupply = none ↔ response.MarketData.TotalSupply = none) ∧
      (response.MarketData.TotalSupply = none → coin.TotalSupply ≠ some 0) ∧
      c2.cache.entries.get (coinKey coinID) =
        some { Data := .coin coin, ExpiresAt := later + c.cache.ttl } := by
  have httl := Cache.Get_ttl c.cache now (coinKey coinID)
  rcases hG : c.cache.Get now (coinKey coinID) with ⟨⟨d, f⟩, cache1⟩
  rw [hG] at hmiss httl
  simp only at hmiss httl
  subst hmiss
  cases d <;>
    simp only [Client.GetCoinData, hG, ho, hs, hb, hu, ne_eq, not_true_eq_false, if_false]
  all_goals
    refine ⟨_, _, rfl, rfl, Iff.rfl, ?_, ?_⟩
    · intro h
      simp [h]
    · simp only [Cache.Set, Time.Add, httl]
      exact GoMap.get_set_self _ _ _

theorem coin_total_supply_copied_witness :
    ∃ coin c2,
      exampleClient.GetCoinData exampleLibDecoding "bitcoin" 0 1 (exampleHttpBody "coin") =
        .done (some coin, none) c2 [coinURL "bitcoin"] ∧
      coin.TotalSupply = none ∧
      (coin.TotalSupply = none ↔ (none : Option Float64) = none) ∧
      ((none : Option Float64) = none → coin.TotalSupply ≠ some 0) ∧
      c2.cache.entries.get (coinKey "bitcoin") =
        some { Data := .coin coin, ExpiresAt := 1 + exampleClient.cache.ttl } :=
  coin_total_supply_copied exampleLibDecoding exampleClient "bitcoin" 0 1
    (exampleHttpBody "coin") { StatusCode := 200, Body := .ok "coin" } "coin"
    { ID := "bitcoin", Symbol := "btc", Name := "Bitcoin"
      MarketData :=
        { CurrentPrice := [("usd", 50000)], MarketCap := [("usd", 1000000)]
          TotalVolume := [("usd", 2000)], CirculatingSupply := 19
          TotalSupply := none
          AllTimeHigh := [("usd", 69000)], AllTimeHighDate := [("usd", "2021-11-10")]
          AllTimeLow := [("usd", 67)], AllTimeLowDate := []
          PriceChangePercentage24h := 1, PriceChangePercentage7d := -2
          PriceChangePercentage30d := 3, PriceChangePercentage90d := 0 } }
    (by rfl) (by rfl) (by rfl) (by rfl) (by rfl)

/-- C12: when the search response decodes to the coin list `cs`, `SearchCoins` returns, with a
nil error, the list whose elements carry the id, symbol and name of the elements of `cs`, in the
same sequence and with every other field zero or absent; it has the length of `cs`, is empty
when `cs` is empty, and is stored in the cache under the search key either way. -/
theorem search_results_projected (L : Lib) (c : Client) (query : String) (now later : Time)
    (http : HttpGet) (resp : HttpResponse) (body : String) (response : SearchResponse)
    (hmiss : (c.cache.Get now (searchKey query)).1.2 = false)
    (ho : http (searchURL query) = .ok resp) (hs : resp.StatusCode = StatusOK)
    (hb : resp.Body = .ok body) (hu : L.unmarshalSearch body = .ok response) :
    ∃ coins c2,
      c.SearchCoins L query now later http = .done (coins, none) c2 [searchURL query] ∧
      coins = response.Coins.map
        (fun coin =>
          ({ ID := coin.ID, Symbol := coin.Symbol, Name := coin.Name, CurrentPrice := 0,
             MarketCap := 0, TotalVolume := 0, CirculatingSupply := 0, TotalSupply := none,
             AllTimeHigh := 0, AllTimeHighDate := 0, AllTimeLow := 0, AllTimeLowDate := 0,
             PriceChangePercentage24h := 0, PriceChangePercentage7d := 0,
             PriceChangePercentage30d := 0, PriceChangePercentage90d := 0 } : Coin)) ∧
      coins.length = response.Coins.length ∧
      (response.Coins = [] → coins = []) ∧
      c2.cache.entries.get (searchKey query) =
        some { Data := .coins coins, ExpiresAt := later + c.cache.ttl } := by
  have httl := Cache.Get_ttl c.cache now (searchKey query)
  rcases hG : c.cache.Get now (searchKey query) with ⟨⟨d, f⟩, cache1⟩
  rw [hG] at hmiss httl
  simp only at hmiss httl
  subst hmiss
  cases d <;>
    simp only [Client.SearchCoins, hG, ho, hs, hb, hu, ne_eq, not_true_eq_false, if_false,
      appendCoins_eq, List.nil_append]
  all_goals
    refine ⟨_, _, rfl, rfl, by simp, ?_, ?_⟩
    · intro h
      simp [h]
    · simp only [Cache.Set, Time.Add, httl]
      exact GoMap.get_set_self _ _ _

theorem search_results_projected_witness :
    ∃ coins c2,
      exampleClient.SearchCoins exampleLibDecoding "zzz" 0 1 (exampleHttpBody "none") =
        .done (coins, none) c2 [searchURL "zzz"] ∧
      coins = ([] : List SearchCoin).map
        (fun coin =>
          ({ ID := coin.ID, Symbol := coin.Symbol, Name := coin.Name, CurrentPrice := 0,
             MarketCap := 0, TotalVolume := 0, CirculatingSupply := 0, TotalSupply := none,
             AllTimeHigh := 0, AllTimeHighDate := 0, AllTimeLow := 0, AllTimeLowDate := 0,
             PriceChangePercentage24h := 0, PriceChangePercentage7d := 0,
             PriceChangePercentage30d := 0, PriceChangePercentage90d := 0 } : Coin)) ∧
      coins.length = ([] : List SearchCoin).length ∧
      (([] : List SearchCoin) = [] → coins = []) ∧
      c2.cache.entries.get (searchKey "zzz") =
        some { Data := .coins coins, ExpiresAt := 1 + exampleClient.cache.ttl } :=
  search_results_projected exampleLibDecoding exampleClient "zzz" 0 1 (exampleHttpBody "none")
    { StatusCode := 200, Body := .ok "none" } "none" { Coins := [] }
    (by rfl) (by rfl) (by rfl) (by rfl) (by rfl)

/-- C13: the command built by `fetchCoinData(query)`: when `SearchCoins` fails, the message is
that error and only the search call was made; when `SearchCoins` succeeds with no result, the
message is the error `no coins found for 'query'` and only the search call was made, no
`GetCoinData`; when it returns a non-empty list, `GetCoinData` is called once, with the id of
the first result, and the message is that call's record, or its error. -/
theorem fetchCoinData_outcomes (L : Lib) (client : Client) (query : String)
    (now1 later1 now2 later2 : Time) (http1 http2 : HttpGet) :
    (∀ rs err client1 requests,
        client.SearchCoins L query now1 later1 http1 = .done (rs, some err) client1 requests →
        fetchCoinData L client query now1 later1 now2 later2 http1 http2 =
          .done (Msg.errMsg err, [Request.search query]) client1 requests) ∧
      (∀ client1 requests,
        client.SearchCoins L query now1 later1 http1 = .done ([], none) client1 requests →
        fetchCoinData L client query now1 later1 now2 later2 http1 http2 =
          .done (Msg.errMsg ("no coins found for \x27" ++ query ++ "\x27"),
            [Request.search query]) client1 requests) ∧
      (∀ first rest client1 requests,
        client.SearchCoins L query now1 later1 http1 =
          .done (first :: rest, none) client1 requests →
        (∀ coinData client2 requests2,
          client1.GetCoinData L first.ID now2 later2 http2 =
            .done (coinData, none) client2 requests2 →
          fetchCoinData L client query now1 later1 now2 later2 http1 http2 =
            .done (Msg.coinDataMsg coinData, [Request.search query, Request.coin first.ID])
              client2 (requests ++ requests2)) ∧
        (∀ coinData err client2 requests2,
          client1.GetCoinData L first.ID now2 later2 http2 =
            .done (coinData, some err) client2 requests2 →
          fetchCoinData L client query now1 later1 now2 later2 http1 http2 =
            .done (Msg.errMsg err, [Request.search query, Request.coin first.ID])
              client2 (requests ++ requests2))) := by
  refine ⟨?_, ?_, ?_⟩
  · intro rs err client1 requests h
    simp only [fetchCoinData, h]
  · intro client1 requests h
    simp only [fetchCoinData, h]
  · intro first rest client1 requests h
    constructor
    · intro coinData client2 requests2 h2
      simp only [fetchCoinData, h, h2]
    · intro coinData err client2 requests2 h2
      simp only [fetchCoinData, h, h2]

theorem fetchCoinData_no_results_example :
    fetchCoinData exampleLibDecoding exampleClient "zzz" 0 1 2 3 (exampleHttpBody "none")
        (exampleHttp 500) =
      .done (Msg.errMsg "no coins found for \x27zzz\x27", [Request.search "zzz"])
        { exampleClient with
          cache :=
            { entries := [("search_zzz", { Data := .coins [], ExpiresAt := 1 + 5 * Minute })]
              ttl := 5 * Minute } }
        ["https://api.coingecko.com/api/v3/search?query=zzz"] := by
  rfl

/-- C14, on the code: a model that holds an error from an earlier failed fetch takes the
delivered data (the home model stops loading and stores the snapshot, the coin model stores the
coin), but neither `Update` clears `err`, so `View` still renders the earlier error and not the
delivered data; such a model is reached from a new one by a failed fetch followed, on the home
view, by the refresh key. -/
theorem stale_error_hides_delivered_data {TI : Type} (B : TextInputLib TI) (home : HomeModel)
    (coinModel : CoinModel TI) (err : GoError) (g : GlobalData) (coin : Coin) :
    ((HomeModel.Update { home with err := some err } (Msg.globalDataMsg (some g))).1.loading = false ∧
      (HomeModel.Update { home with err := some err } (Msg.globalDataMsg (some g))).1.globalData =
        some g ∧
      (HomeModel.Update { home with err := some err } (Msg.globalDataMsg (some g))).1.View =
        HomeScreen.error ("Error: " ++ err)) ∧
      ((CoinModel.Update B { coinModel with err := some err } (Msg.coinDataMsg (some coin))).1.coin =
          some coin ∧
        (CoinModel.Update B { coinModel with err := some err }
          (Msg.coinDataMsg (some coin))).1.View = CoinScreen.error ("Error: " ++ err)) ∧
      (((NewHomeModel.Update (Msg.errMsg err)).1.Update (Msg.key "r")).1.Update
          (Msg.globalDataMsg (some g))).1.View = HomeScreen.error ("Error: " ++ err) ∧
      (CoinModel.Update B (CoinModel.Update B (NewCoinModel B) (Msg.errMsg err)).1
          (Msg.coinDataMsg (some coin))).1.View = CoinScreen.error ("Error: " ++ err) := by
  refine ⟨⟨rfl, rfl, ?_⟩, ⟨rfl, ?_⟩, ?_, ?_⟩
  · simp [HomeModel.Update, HomeModel.View]
  · simp [CoinModel.Update, CoinModel.View]
  · simp [NewHomeModel, HomeModel.Update, HomeModel.View]
  · simp [NewCoinModel, CoinModel.Update, CoinModel.View]

/-- C15, on the code: with the home view current, `mainModel.Update` discards a stale
`coinDataMsg` (and, with the coin view current, a stale `globalDataMsg`) leaving the whole main
model as it was, but it hands a stale `errMsg` to the home model, which takes it as its own: the
home model's error becomes the delivered one, its loading flag is cleared, and the home view
renders that error, also after the refresh key and a delivered snapshot. The error message of an
abandoned coin search without results, built by `fetchCoinData`, replaces the overview of the
example home view in this way. -/
theorem stale_coin_error_shown_on_home {TI : Type} (B : TextInputLib TI) (m : MainModel TI)
    (err : GoError) (coinData : Option Coin) (g : GlobalData) :
    ((MainModel.Update B { m with currentView := View.homeView }
          (Msg.errMsg err)).1.homeModel.err = some err ∧
        (MainModel.Update B { m with currentView := View.homeView }
          (Msg.errMsg err)).1.homeModel.loading = false ∧
        (MainModel.Update B { m with currentView := View.homeView }
          (Msg.errMsg err)).1.homeModel.View = HomeScreen.error ("Error: " ++ err)) ∧
      MainModel.Update B { m with currentView := View.homeView } (Msg.coinDataMsg coinData) =
        ({ m with currentView := View.homeView }, Cmd.none) ∧
      MainModel.Update B { m with currentView := View.coinView } (Msg.globalDataMsg (some g)) =
        ({ m with currentView := View.coinView }, Cmd.none) ∧
      (MainModel.Update B
          (MainModel.Update B
            (MainModel.Update B { m with currentView := View.homeView } (Msg.errMsg err)).1
            (Msg.key "r")).1
          (Msg.globalDataMsg (some g))).1.homeModel.View = HomeScreen.error ("Error: " ++ err) ∧
      (fetchCoinData exampleLibDecoding exampleClient "zzz" 0 1 2 3 (exampleHttpBody "none")
            (exampleHttp 500) =
          .done (Msg.errMsg "no coins found for \x27zzz\x27", [Request.search "zzz"])
            { exampleClient with
              cache :=
                { entries :=
                    [("search_zzz", { Data := .coins [], ExpiresAt := 1 + 5 * Minute })]
                  ttl := 5 * Minute } }
            ["https://api.coingecko.com/api/v3/search?query=zzz"] ∧
        exampleMain.currentView = View.homeView ∧
        exampleMain.homeModel.View = HomeScreen.overview exampleSnapshot ∧
        (exampleMain.Update exampleInput
          (Msg.errMsg "no coins found for \x27zzz\x27")).1.homeModel.View =
            HomeScreen.error "Error: no coins found for \x27zzz\x27") := by
  refine ⟨⟨rfl, rfl, ?_⟩, rfl, rfl, ?_, ?_, rfl, ?_, ?_⟩
  · simp [MainModel.Update, MainModel.forward, HomeModel.Update, HomeModel.View]
  · simp [MainModel.Update, MainModel.forward, HomeModel.Update, HomeModel.View]
  · rfl
  · decide
  · decide

/-- C16, on the code: `Set` and every sweep pass mutate the map only while holding the
exclusive lock, but `Get` breaks the discipline exactly when it meets an expired entry: it
deletes that entry while holding only the shared read lock. -/
theorem get_deletes_under_read_lock {V : Type} (c : Cache V) (now : Time) (key : String)
    (order : List String) :
    (lockDiscipline Held.free (c.GetEvents now key) = false ↔
        ∃ entry, c.entries.get key = some entry ∧ Time.After now entry.ExpiresAt = true) ∧
      lockDiscipline Held.free (Cache.SetEvents key) = true ∧
      lockDiscipline Held.free (c.cleanupEvents now order) = true := by
  refine ⟨?_, by simp [Cache.SetEvents, lockDiscipline], ?_⟩
  · cases h : c.entries.get key with
    | none => simp [Cache.GetEvents, h, lockDiscipline]
    | some entry =>
      cases hx : Time.After now entry.ExpiresAt with
      | true => simp [Cache.GetEvents, h, hx, lockDiscipline]
      | false => simp [Cache.GetEvents, h, hx, lockDiscipline]
  · simp only [Cache.cleanupEvents, List.append_assoc, List.singleton_append, lockDiscipline]
    exact lockDiscipline_cleanupLoop now order c.entries _ (by simp [lockDiscipline])

/-- C17: from a new client, every sequence of fetches (of the three kinds) and sweep passes
runs without panic and ends in a client whose cache holds, under every key, a value of the type
the method of that key asserts on a hit; in that client no fetch panics either. -/
theorem type_assertions_never_fail (L : Lib) (timeout ttl : Duration) (calls : List Call) :
    ∃ c, (NewClient timeout ttl).run L calls = some c ∧ c.wellTyped ∧
      ∀ (req : Request) (now later : Time) (http : HttpGet),
        c.fetch L req now later http ≠ .panic := by
  obtain ⟨c, hrun, hty⟩ :=
    Client.run_wellTyped L calls (NewClient timeout ttl) (NewClient_wellTyped timeout ttl)
  exact ⟨c, hrun, hty, fun req now later http => Client.fetch_no_panic L c req now later http hty⟩

/-- C18: `GetTimeBasedBg` returns the day background when `6 ≤ hour < 18` and the default dark
background for every other hour, never the night background; `GetTextColor` is black exactly
when `6 ≤ hour < 18` and white otherwise. -/
theorem time_based_colours (hour : Int) :
    (6 ≤ hour ∧ hour < 18 → GetTimeBasedBg hour = dayBg ∧ GetTextColor hour = black) ∧
      (¬ (6 ≤ hour ∧ hour < 18) →
        GetTimeBasedBg hour = defaultBg ∧ GetTextColor hour = white) ∧
      GetTimeBasedBg hour ≠ nightBg ∧
      (GetTextColor hour = black ↔ 6 ≤ hour ∧ hour < 18) := by
  have hdn : dayBg ≠ nightBg := by decide
  have hfn : defaultBg ≠ nightBg := by decide
  have hfd : defaultBg ≠ dayBg := by decide
  have hwb : white ≠ black := by decide
  have hnever : ¬ (hour ≥ 18 ∧ hour < 6) := by
    rintro ⟨h1, h2⟩
    linarith
  by_cases h : hour ≥ 6 ∧ hour < 18
  · have hbg : GetTimeBasedBg hour = dayBg := by simp only [GetTimeBasedBg, if_pos h]
    have htx : GetTextColor hour = black := by simp only [GetTextColor, hbg, if_true]
    refine ⟨fun _ => ⟨hbg, htx⟩, fun hn => absurd h hn, by rw [hbg]; exact hdn, ?_⟩
    exact ⟨fun _ => h, fun _ => htx⟩
  · have hbg : GetTimeBasedBg hour = defaultBg := by
      simp only [GetTimeBasedBg, if_neg h, if_neg hnever]
    have htx : GetTextColor hour = white := by simp only [GetTextColor, hbg, if_neg hfd]
    refine ⟨fun hp => absurd hp h, fun _ => ⟨hbg, htx⟩, by rw [hbg]; exact hfn, ?_⟩
    constructor
    · intro hb
      rw [htx] at hb
      exact absurd hb hwb
    · intro hp
      exact absurd hp h

end NeonGecko
